import Mathlib

/-!
Verification of the go-fluent-validator schema-validation engine.

This file shallowly embeds the data model and operations of the repository
(package `validation` in pkg/validation/schema.go, package `core` in
core/result.go, core/base_type.go, package `types` in types/string.go,
types/number.go, types/object.go, types/array.go, and package `rules` in
the payment rules file holding `luhnCheck`, `IsValidCreditCard` and
`IsValidIBAN`), and proves properties of the embedded definitions.

Modelling conventions, used throughout:

* A Go `string` is modelled as `List Char` (`GoStr`); Go iterates strings
  by rune, which matches `List Char` element-wise.  `len(s)` in Go is the
  UTF-8 byte length, modelled by `goLen` (the sum of the UTF-8 sizes of
  the characters); on ASCII data this equals the list length.
* A Go `any` value is modelled by the inductive `GoValue` covering the
  cases this library manipulates: nil, string, int, bool, slice, map.
  Go float values and time values are outside the modelled universe
  (the Boolean/Date/UUID/IBAN/CreditCard field types and the float-based
  numeric constraint slots are not modelled; every modelled configuration
  corresponds to a Go configuration where those slots are unset).
* Go maps are modelled as association lists.  Go map iteration order is
  unspecified; the list order of an embedded shape fixes one admissible
  iteration order, and universally quantified theorems hold for every
  list order.
* `i18n.Get` is embedded at the default locale "en" (the process-wide
  locale state is never changed by the engine itself): each message key
  used by the embedded code becomes one message-building function whose
  text is the "en" template from i18n/messages.go with the arguments
  spliced at the format verbs.
-/

/-- Go strings, iterated rune by rune. -/
abbrev GoStr := List Char

/-- Literal Go string from a Lean string literal. -/
def gs (s : String) : GoStr := s.data

/-- Go `len` of a string: the UTF-8 byte length. -/
def goLen (s : GoStr) : Nat := (s.map Char.utf8Size).sum

/-- Go `any` values, restricted to the universe this library manipulates. -/
inductive GoValue where
  | vNil
  | vStr (s : GoStr)
  | vInt (n : Int)
  | vBool (b : Bool)
  | vList (xs : List GoValue)
  | vMap (m : List (GoStr × GoValue))

/-- Source `value == nil` in Go. -/
def GoValue.isNil : GoValue → Bool
  | .vNil => true
  | _ => false

/-- Go `==` on interface values, for the comparable cases this library
compares (`val == rule.expectedValue` in schema.go).  Comparing slices or
maps panics in Go; those cases are modelled as `false` and are never
exercised by any theorem below. -/
def goEq : GoValue → GoValue → Bool
  | .vNil, .vNil => true
  | .vStr a, .vStr b => a = b
  | .vInt a, .vInt b => a = b
  | .vBool a, .vBool b => a = b
  | _, _ => false

/-- A record (`map[string]any`), as an association list. -/
abbrev AssocMap := List (GoStr × GoValue)

/-- Association-list lookup (`v, ok := m[k]`). -/
def lookupA {α : Type} : List (GoStr × α) → GoStr → Option α
  | [], _ => none
  | (k, v) :: rest, f => if k = f then some v else lookupA rest f

/-- Go map read `m[k]` with the zero value `nil` for a missing key. -/
def mapGet (m : AssocMap) (k : GoStr) : GoValue :=
  (lookupA m k).getD .vNil

/-- Go map write `m[k] = v`. -/
def mapSet {α : Type} : List (GoStr × α) → GoStr → α → List (GoStr × α)
  | [], k, v => [(k, v)]
  | (k', v') :: rest, k, v =>
    if k' = k then (k', v) :: rest else (k', v') :: mapSet rest k v

/-- Source `strings.HasPrefix`. -/
def strStarts : GoStr → GoStr → Bool
  | _, [] => true
  | [], _ :: _ => false
  | c :: s, p :: ps => c = p && strStarts s ps

/-- Source `strings.HasSuffix`. -/
def strEnds (s suffx : GoStr) : Bool :=
  strStarts s.reverse suffx.reverse

/-- Source `strings.Contains`. -/
def strHas : GoStr → GoStr → Bool
  | [], sub => sub = []
  | c :: rest, sub => strStarts (c :: rest) sub || strHas rest sub

/-- Source `strings.TrimPrefix`. -/
def trimPre (s p : GoStr) : GoStr :=
  if strStarts s p then s.drop p.length else s

/-- Source `strings.Split(s, sep)` for a one-character separator (the library
only splits on "@" and "."); always returns at least one segment. -/
def splitOnChar (sep : Char) : GoStr → List GoStr
  | [] => [[]]
  | c :: rest =>
    let tail := splitOnChar sep rest
    if c = sep then [] :: tail
    else match tail with
      | [] => [[c]]
      | seg :: segs => (c :: seg) :: segs

/-- Decimal digits of a natural number (`strconv.Itoa` on non-negatives). -/
def natDigits (n : Nat) : GoStr :=
  (Nat.toDigits 10 n)

/-- Source `strconv.Itoa` / the `%d` format verb on an int. -/
def intToStr (n : Int) : GoStr :=
  if n < 0 then '-' :: natDigits n.natAbs else natDigits n.natAbs

-- ---------------------------------------------------------------------------
-- core/result.go : ValidationResult
-- ---------------------------------------------------------------------------

/-- Source `core.ValidationResult`: field-keyed error buckets plus the sanitized
output map.  The Go struct holds two maps; the error map is modelled as an
association list from field key to its ordered message list. -/
structure VResult where
  errors : List (GoStr × List GoStr)
  validData : AssocMap

/-- Source `core.NewResult()`. -/
def newResult : VResult := ⟨[], []⟩

/-- Source `errors[field] = append(errors[field], message)`: append one message to
a field's bucket, creating the bucket if absent. -/
def addToBucket : List (GoStr × List GoStr) → GoStr → GoStr → List (GoStr × List GoStr)
  | [], f, m => [(f, [m])]
  | (k, ms) :: rest, f, m =>
    if k = f then (k, ms ++ [m]) :: rest else (k, ms) :: addToBucket rest f m

/-- Source `ValidationResult.AddError`. -/
def VResult.addError (r : VResult) (field msg : GoStr) : VResult :=
  { r with errors := addToBucket r.errors field msg }

/-- Source `ValidationResult.HasErrors`: `len(r.errors) > 0`. -/
def VResult.hasErrors (r : VResult) : Bool :=
  r.errors.length > 0

/-- Source `ValidationResult.SetValidData`. -/
def VResult.setValidData (r : VResult) (d : AssocMap) : VResult :=
  { r with validData := d }

/-- The ordered message list recorded for a field (empty when absent). -/
def VResult.bucket (r : VResult) (f : GoStr) : List GoStr :=
  (lookupA r.errors f).getD []

-- ---------------------------------------------------------------------------
-- i18n/messages.go : Get at the default locale "en"
-- ---------------------------------------------------------------------------

/-- i18n KeyRequired, "en": `%s is required`. -/
def msgRequired (n : GoStr) : GoStr := n ++ gs " is required"

/-- i18n KeyString, "en": `%s must be a string`. -/
def msgString (n : GoStr) : GoStr := n ++ gs " must be a string"

/-- i18n KeyNumeric, "en": `%s must be a numeric value`. -/
def msgNumeric (n : GoStr) : GoStr := n ++ gs " must be a numeric value"

/-- i18n KeyObject, "en": `%s must be an object`. -/
def msgObject (n : GoStr) : GoStr := n ++ gs " must be an object"

/-- i18n KeyEmail, "en": `%s must be a valid email address`. -/
def msgEmail (n : GoStr) : GoStr := n ++ gs " must be a valid email address"

/-- i18n KeyURL, "en": `%s must be a valid URL`. -/
def msgURL (n : GoStr) : GoStr := n ++ gs " must be a valid URL"

/-- i18n KeyMinLength, "en": `%s must be at least %d characters long`. -/
def msgMinLength (n : GoStr) (m : Int) : GoStr :=
  n ++ gs " must be at least " ++ intToStr m ++ gs " characters long"

/-- i18n KeyMaxLength, "en": `%s must be at most %d characters long`. -/
def msgMaxLength (n : GoStr) (m : Int) : GoStr :=
  n ++ gs " must be at most " ++ intToStr m ++ gs " characters long"

/-- Source `fmt.Sprintf("%v", xs)` on a `[]string`, used by the oneOf message. -/
def fmtStrSlice (xs : List GoStr) : GoStr :=
  gs "[" ++ (xs.intersperse (gs " ")).flatten ++ gs "]"

/-- i18n KeyOneOf, "en": `%s must be one of: %s`. -/
def msgOneOf (n : GoStr) (vals : GoStr) : GoStr :=
  n ++ gs " must be one of: " ++ vals

/-- i18n KeyAlpha, "en": `%s must contain only alphabetic characters`. -/
def msgAlpha (n : GoStr) : GoStr := n ++ gs " must contain only alphabetic characters"

/-- i18n KeyAlphanumeric, "en": `%s must contain only alphanumeric characters`. -/
def msgAlphanumeric (n : GoStr) : GoStr := n ++ gs " must contain only alphanumeric characters"

/-- i18n KeyNumericString, "en": `%s must contain only numeric characters`. -/
def msgNumericString (n : GoStr) : GoStr := n ++ gs " must contain only numeric characters"

/-- i18n KeyStartsWith, "en": `%s must start with '%s'`. -/
def msgStartsWith (n p : GoStr) : GoStr := n ++ gs " must start with '" ++ p ++ gs "'"

/-- i18n KeyEndsWith, "en": `%s must end with '%s'`. -/
def msgEndsWith (n p : GoStr) : GoStr := n ++ gs " must end with '" ++ p ++ gs "'"

/-- i18n KeyContains, "en": `%s must contain '%s'`. -/
def msgContains (n p : GoStr) : GoStr := n ++ gs " must contain '" ++ p ++ gs "'"

/-- i18n KeyRegex, "en": `%s does not match the required pattern`. -/
def msgRegex (n : GoStr) : GoStr := n ++ gs " does not match the required pattern"

/-- i18n KeyMAC, "en": `%s must be a valid MAC address`. -/
def msgMAC (n : GoStr) : GoStr := n ++ gs " must be a valid MAC address"

/-- i18n KeyHex, "en": `%s must be a valid hexadecimal string`. -/
def msgHex (n : GoStr) : GoStr := n ++ gs " must be a valid hexadecimal string"

/-- i18n KeyNotEmpty, "en": `%s must not be empty`. -/
def msgNotEmpty (n : GoStr) : GoStr := n ++ gs " must not be empty"

/-- types/array.go line 183 (literal Sprintf, not i18n):
`%s alanında en az %d eleman olmalıdır`. -/
def msgArrMin (n : GoStr) (m : Int) : GoStr :=
  n ++ gs " alanında en az " ++ intToStr m ++ gs " eleman olmalıdır"

/-- types/array.go line 186 (literal Sprintf, not i18n):
`%s alanında en fazla %d eleman olmalıdır`. -/
def msgArrMax (n : GoStr) (m : Int) : GoStr :=
  n ++ gs " alanında en fazla " ++ intToStr m ++ gs " eleman olmalıdır"

/-- types/array.go line 176 (literal Sprintf, not i18n):
`%s alanı dizi (array) tipinde olmalıdır`. -/
def msgArrType (n : GoStr) : GoStr :=
  n ++ gs " alanı dizi (array) tipinde olmalıdır"

/-- schema.go transform failure: `fmt.Sprintf("Dönüşüm hatası: %s", err)`. -/
def msgTransformErr (e : GoStr) : GoStr := gs "Dönüşüm hatası: " ++ e

-- ---------------------------------------------------------------------------
-- Character classes and the fixed regexes of types/string.go
-- ---------------------------------------------------------------------------

/-- Source `[0-9]`. -/
def isDigitCh (c : Char) : Bool := '0' ≤ c && c ≤ '9'

/-- Source `[a-zA-Z]`. -/
def isAlphaCh (c : Char) : Bool := ('a' ≤ c && c ≤ 'z') || ('A' ≤ c && c ≤ 'Z')

/-- Source `[a-zA-Z0-9]`. -/
def isAlnumCh (c : Char) : Bool := isAlphaCh c || isDigitCh c

/-- Source `[0-9A-Fa-f]`. -/
def isHexCh (c : Char) : Bool :=
  isDigitCh c || ('a' ≤ c && c ≤ 'f') || ('A' ≤ c && c ≤ 'F')

/-- Source `alphaRegex = ^[a-zA-Z]+$`. -/
def alphaMatch (s : GoStr) : Bool := !s.isEmpty && s.all isAlphaCh

/-- Source `alphanumericRegex = ^[a-zA-Z0-9]+$`. -/
def alnumMatch (s : GoStr) : Bool := !s.isEmpty && s.all isAlnumCh

/-- Source `numericRegex = ^[0-9]+$`. -/
def numMatch (s : GoStr) : Bool := !s.isEmpty && s.all isDigitCh

/-- Source `hexRegex = ^[0-9A-Fa-f]+$`. -/
def hexMatch (s : GoStr) : Bool := !s.isEmpty && s.all isHexCh

/-- Source `macRegex = ^([0-9A-Fa-f]{2}[:-]){5}([0-9A-Fa-f]{2})$`: five groups of
two hex digits each followed by a `:` or `-` separator, then a final group
of two hex digits. -/
def macGroups : Nat → GoStr → Bool
  | 0, [a, b] => isHexCh a && isHexCh b
  | n + 1, a :: b :: sep :: rest =>
    isHexCh a && isHexCh b && (sep = ':' || sep = '-') && macGroups n rest
  | _, _ => false

/-- Source `macRegex.MatchString`. -/
def macMatch (s : GoStr) : Bool := macGroups 5 s

/-- A word sequence `W+ (sep W+)*` over word class `w` and separator class
`sep`, characterized without backtracking: non-empty, every character in
`w ∪ sep`, first and last characters in `w`, and no two adjacent separator
characters. -/
def sepWords (w sep : Char → Bool) (s : GoStr) : Bool :=
  !s.isEmpty
  && s.all (fun c => w c || sep c)
  && (match s with | [] => false | c :: _ => w c)
  && (match s.getLast? with | none => false | some c => w c)
  && !(s.zip s.tail).any (fun p => sep p.1 && sep p.2)

/-- Local part of `emailRegex`: `[a-zA-Z0-9]+([._+-][a-zA-Z0-9]+)*`. -/
def emailLocalMatch (s : GoStr) : Bool :=
  sepWords isAlnumCh (fun c => c = '.' || c = '_' || c = '+' || c = '-') s

/-- Domain part of `emailRegex`: `[a-zA-Z0-9]+([.-][a-zA-Z0-9]+)*\.[a-zA-Z]{2,}`.
Because the TLD segment admits only letters, the `\.` before it can only be
the last dot of the string, so the regex is characterized by splitting at
the last dot. -/
def emailDomainMatch (s : GoStr) : Bool :=
  match (splitOnChar '.' s).reverse with
  | tld :: revInit =>
    !revInit.isEmpty
    && tld.length ≥ 2 && tld.all isAlphaCh
    && sepWords isAlnumCh (fun c => c = '.' || c = '-')
         ((revInit.reverse.intersperse [ '.' ]).flatten)
  | [] => false

/-- Source `emailRegex.MatchString`: exactly one `@` (neither side of the pattern
admits `@`), local part before it, domain part after it. -/
def emailMatch (s : GoStr) : Bool :=
  match splitOnChar '@' s with
  | [l, d] => emailLocalMatch l && emailDomainMatch d
  | _ => false

/-- One host label of `urlRegex`: `[a-zA-Z0-9]([a-zA-Z0-9-]*[a-zA-Z0-9])?`,
i.e. non-empty over alnum and `-` with alnum first and last characters. -/
def urlLabelMatch (s : GoStr) : Bool :=
  !s.isEmpty
  && s.all (fun c => isAlnumCh c || c = '-')
  && (match s with | [] => false | c :: _ => isAlnumCh c)
  && (match s.getLast? with | none => false | some c => isAlnumCh c)

/-- Go regexp `\s` class: `[\t\n\f\r ]`. -/
def isSpaceCh (c : Char) : Bool :=
  c = '\t' || c = '\n' || c = '\x0c' || c = '\r' || c = ' '

/-- Optional path-then-query tail of `urlRegex`:
`(/[^\s]*)?(\?[^\s]*)?$`.  The tail is empty, or starts with `/` or `?`
and holds no whitespace (the `[^\s]*` of a leading `/` can absorb any
later `?`). -/
def urlTailMatch (s : GoStr) : Bool :=
  match s with
  | [] => true
  | c :: rest => (c = '/' || c = '?') && !(rest.any isSpaceCh)

/-- Optional port plus tail of `urlRegex`: `(:[0-9]+)?` then the tail.
Host labels admit no `:`, so a leading `:` can only start the port; its
digit run is maximal because the tail never starts with a digit-only
continuation. -/
def urlPortTailMatch (s : GoStr) : Bool :=
  match s with
  | ':' :: rest =>
    let digits := rest.takeWhile isDigitCh
    !digits.isEmpty && urlTailMatch (rest.drop digits.length)
  | _ => urlTailMatch s

/-- Source `urlRegex.MatchString`:
`^https?://host(\.host)+(:[0-9]+)?(/[^\s]*)?(\?[^\s]*)?$`.  The host part
is the maximal run over `[a-zA-Z0-9.-]` (nothing after it may start with
those characters), split on `.` into at least two labels. -/
def urlMatch (s : GoStr) : Bool :=
  let afterScheme :=
    if strStarts s (gs "https://") then some (s.drop 8)
    else if strStarts s (gs "http://") then some (s.drop 7)
    else none
  match afterScheme with
  | none => false
  | some rest =>
    let hostRun := rest.takeWhile (fun c => isAlnumCh c || c = '-' || c = '.')
    let labels := splitOnChar '.' hostRun
    labels.length ≥ 2 && labels.all urlLabelMatch
    && urlPortTailMatch (rest.drop hostRun.length)

-- ---------------------------------------------------------------------------
-- core/base_type.go : BaseType
-- ---------------------------------------------------------------------------

/-- Source `core.BaseType`: the shared required/label/default/transform-chain
configuration embedded by every concrete type.  A transform step is a Go
`func(any) (any, error)`, modelled as `GoValue → Except GoStr GoValue`
(the `GoStr` is the error's message). -/
structure BaseType where
  isRequired : Bool
  label : GoStr
  defaultValue : GoValue
  transformations : List (GoValue → Except GoStr GoValue)

/-- A `BaseType` zero value: not required, empty label ("" in Go), nil
default, no transform steps. -/
def plainBase : BaseType := ⟨false, [], .vNil, []⟩

/-- Source `BaseType.GetLabel`. -/
def BaseType.getLabel (b : BaseType) (defaultLabel : GoStr) : GoStr :=
  if b.label ≠ [] then b.label else defaultLabel

/-- The transform-chain loop inside `BaseType.Transform`: thread the value
through each step in order, aborting on the first error. -/
def runTransforms : List (GoValue → Except GoStr GoValue) → GoValue → Except GoStr GoValue
  | [], v => .ok v
  | f :: fs, v =>
    match f v with
    | .error e => .error e
    | .ok v2 => runTransforms fs v2

/-- Source `BaseType.Transform`: substitute the default for nil, short-circuit a
still-nil value, then run the transform chain. -/
def BaseType.transform (b : BaseType) (value : GoValue) : Except GoStr GoValue :=
  let value := if value.isNil && !b.defaultValue.isNil then b.defaultValue else value
  if value.isNil then .ok .vNil
  else runTransforms b.transformations value

/-- Source `BaseType.Validate`: the required check.  A required field errors on a
nil value and on the empty string, in both cases returning immediately. -/
def BaseType.validate (b : BaseType) (field : GoStr) (value : GoValue) (r : VResult) : VResult :=
  let fieldName := b.getLabel field
  if b.isRequired then
    if value.isNil then r.addError field (msgRequired fieldName)
    else match value with
      | .vStr s => if s = [] then r.addError field (msgRequired fieldName) else r
      | _ => r
  else r

-- ---------------------------------------------------------------------------
-- types/string.go : StringType
-- ---------------------------------------------------------------------------

/-- Source `types.StringType` configuration.  `emailRegex`/`urlRegex` are
`*regexp.Regexp` slots in Go that are either nil or the fixed package-level
regex, so they are modelled as flags; `customRegex` is a compiled
user-supplied pattern, modelled as its matcher function, with `regexError`
the error kept by `Regex` on a pattern that failed to compile.  The
`passwordRules`, `ipVersion`, `phoneCountry`, `isBase64` and
`customValidation` slots are not modelled: every embedded configuration
corresponds to a Go `StringType` with those slots unset. -/
structure StringType where
  base : BaseType
  minLength : Option Int
  maxLength : Option Int
  emailRegex : Bool
  urlRegex : Bool
  allowedValues : List GoStr
  isAlpha : Bool
  isAlphanumeric : Bool
  isNumeric : Bool
  startsWith : Option GoStr
  endsWith : Option GoStr
  containsStr : Option GoStr
  customRegex : Option (GoStr → Bool)
  regexError : Option GoStr
  isMAC : Bool
  isHex : Bool

/-- A `StringType` with every rule slot unset (`validation.String()`). -/
def plainStr : StringType :=
  ⟨plainBase, none, none, false, false, [], false, false, false,
   none, none, none, none, none, false, false⟩

/-- The email block's TLD pre-check (string.go lines 295-305): split on
`@`; with exactly two parts, split the domain on `.` and flag a final
segment shorter than 2 bytes. -/
def emailTldShort (str : GoStr) : Bool :=
  match splitOnChar '@' str with
  | [_, domain] =>
    let domainParts := splitOnChar '.' domain
    if domainParts.length > 0 then
      match domainParts.getLast? with
      | some tld => decide (goLen tld < 2)
      | none => false
    else false
  | _ => false

/-- The oneOf check (string.go lines 334-345). -/
def oneOfStep (s : StringType) (field fieldName str : GoStr) (r : VResult) : VResult :=
  if !s.allowedValues.isEmpty && !s.allowedValues.any (fun a => a = str) then
    r.addError field (msgOneOf fieldName (fmtStrSlice s.allowedValues))
  else r

/-- The alpha charset check (string.go lines 365-367). -/
def alphaStep (s : StringType) (field fieldName str : GoStr) (r : VResult) : VResult :=
  if s.isAlpha && !alphaMatch str then r.addError field (msgAlpha fieldName) else r

/-- The alphanumeric charset check (string.go lines 369-371). -/
def alnumStep (s : StringType) (field fieldName str : GoStr) (r : VResult) : VResult :=
  if s.isAlphanumeric && !alnumMatch str then r.addError field (msgAlphanumeric fieldName) else r

/-- The numeric charset check (string.go lines 373-375). -/
def numericStep (s : StringType) (field fieldName str : GoStr) (r : VResult) : VResult :=
  if s.isNumeric && !numMatch str then r.addError field (msgNumericString fieldName) else r

/-- The startsWith check (string.go lines 377-379). -/
def startsStep (s : StringType) (field fieldName str : GoStr) (r : VResult) : VResult :=
  match s.startsWith with
  | some p => if !strStarts str p then r.addError field (msgStartsWith fieldName p) else r
  | none => r

/-- The endsWith check (string.go lines 381-383). -/
def endsStep (s : StringType) (field fieldName str : GoStr) (r : VResult) : VResult :=
  match s.endsWith with
  | some p => if !strEnds str p then r.addError field (msgEndsWith fieldName p) else r
  | none => r

/-- The contains check (string.go lines 385-387). -/
def containsStep (s : StringType) (field fieldName str : GoStr) (r : VResult) : VResult :=
  match s.containsStr with
  | some p => if !strHas str p then r.addError field (msgContains fieldName p) else r
  | none => r

/-- The custom regex match (string.go lines 394-396). -/
def customRegexStep (s : StringType) (field fieldName str : GoStr) (r : VResult) : VResult :=
  match s.customRegex with
  | some re => if !re str then r.addError field (msgRegex fieldName) else r
  | none => r

/-- The MAC check (string.go lines 398-400). -/
def macStep (s : StringType) (field fieldName str : GoStr) (r : VResult) : VResult :=
  if s.isMAC && !macMatch str then r.addError field (msgMAC fieldName) else r

/-- The hex check (string.go lines 402-404). -/
def hexStep (s : StringType) (field fieldName str : GoStr) (r : VResult) : VResult :=
  if s.isHex && !hexMatch str then r.addError field (msgHex fieldName) else r

/-- The minLength check (string.go lines 281-283). -/
def minLenStep (s : StringType) (field fieldName str : GoStr) (r : VResult) : VResult :=
  match s.minLength with
  | some m => if (goLen str : Int) < m then r.addError field (msgMinLength fieldName m) else r
  | none => r

/-- The maxLength check (string.go lines 285-287). -/
def maxLenStep (s : StringType) (field fieldName str : GoStr) (r : VResult) : VResult :=
  match s.maxLength with
  | some m => if (goLen str : Int) > m then r.addError field (msgMaxLength fieldName m) else r
  | none => r

/-- Checks of `StringType.Validate` after the url block (string.go lines
334-415): oneOf, charset flags, startsWith/endsWith/contains, the invalid
custom-regex early return (which records `<label>: <err>` and stops the
pass), then custom regex, MAC, hex.  The password, ip, phone, base64 and
custom-validation checks sit among these in the source but their slots are
unset in every embedded configuration. -/
def strChecksTail (s : StringType) (field fieldName str : GoStr) (r : VResult) : VResult :=
  let r1 := oneOfStep s field fieldName str r
  let r2 := alphaStep s field fieldName str r1
  let r3 := alnumStep s field fieldName str r2
  let r4 := numericStep s field fieldName str r3
  let r5 := startsStep s field fieldName str r4
  let r6 := endsStep s field fieldName str r5
  let r7 := containsStep s field fieldName str r6
  match s.regexError with
  | some e => r7.addError field (fieldName ++ gs ": " ++ e)
  | none => hexStep s field fieldName str (macStep s field fieldName str (customRegexStep s field fieldName str r7))

/-- The url block of `StringType.Validate` (string.go lines 312-332): a
space, a missing http(s) scheme, or an empty remainder each records a URL
error and returns; otherwise a regex mismatch records a URL error and the
pass continues with the remaining checks. -/
def strChecksFromUrl (s : StringType) (field fieldName str : GoStr) (r : VResult) : VResult :=
  if s.urlRegex then
    if strHas str (gs " ") then r.addError field (msgURL fieldName)
    else if !strStarts str (gs "http://") && !strStarts str (gs "https://") then
      r.addError field (msgURL fieldName)
    else if goLen (trimPre (trimPre str (gs "https://")) (gs "http://")) = 0 then
      r.addError field (msgURL fieldName)
    else
      strChecksTail s field fieldName str
        (if !urlMatch str then r.addError field (msgURL fieldName) else r)
  else strChecksTail s field fieldName str r

/-- The email block of `StringType.Validate` (string.go lines 289-310): a
`..` substring or a too-short TLD records an email error and returns;
otherwise a regex mismatch records an email error and the pass continues
with the url block. -/
def strChecksFromEmail (s : StringType) (field fieldName str : GoStr) (r : VResult) : VResult :=
  if s.emailRegex then
    if strHas str (gs "..") then r.addError field (msgEmail fieldName)
    else if emailTldShort str then r.addError field (msgEmail fieldName)
    else
      strChecksFromUrl s field fieldName str
        (if !emailMatch str then r.addError field (msgEmail fieldName) else r)
  else strChecksFromUrl s field fieldName str r

/-- Source `StringType.Validate` (string.go lines 264-416): required check, early
return when the shared result already holds any error, nil passthrough,
string type check, then min/max length and the check cascade. -/
def strValidate (s : StringType) (field : GoStr) (value : GoValue) (r : VResult) : VResult :=
  let r1 := s.base.validate field value r
  if r1.hasErrors then r1
  else if value.isNil then r1
  else
    match value with
    | .vStr str =>
      let fieldName := s.base.getLabel field
      strChecksFromEmail s field fieldName str
        (maxLenStep s field fieldName str (minLenStep s field fieldName str r1))
    | _ => r1.addError field (msgString (s.base.getLabel field))

-- ---------------------------------------------------------------------------
-- types/number.go : NumberType
-- ---------------------------------------------------------------------------

/-- Source `types.NumberType` configuration.  The float64-valued constraint slots
(`min`, `max`, `multipleOf`, `betweenMin`/`betweenMax`), the sign flags and
`customValidation` are not modelled: every embedded configuration
corresponds to a Go `NumberType` with those slots unset.  `isInteger` is
kept; its check `num != float64(int64(num))` never fires on an int input
(faithful for `|v| < 2^53`). -/
structure NumberType where
  base : BaseType
  isInteger : Bool

/-- Source `NumberType.Validate` (number.go lines 202-283) on the modelled value
universe: required check, early return when the shared result already
holds any error, nil passthrough, then the numeric type switch -- an int
passes (and the unset constraint slots add nothing), any other value
records a numeric-type error and returns. -/
def numValidate (n : NumberType) (field : GoStr) (value : GoValue) (r : VResult) : VResult :=
  let r1 := n.base.validate field value r
  if r1.hasErrors then r1
  else if value.isNil then r1
  else
    match value with
    | .vInt _ => r1
    | _ => r1.addError field (msgNumeric (n.base.getLabel field))

-- ---------------------------------------------------------------------------
-- core/interfaces.go : the Type universe (types/{string,number,object,array}.go)
-- ---------------------------------------------------------------------------

mutual

/-- The `core.Type` dynamic dispatch universe, restricted to the four
variants the claims exercise: `StringType`, `NumberType`, `ObjectType`
(base + child shape) and `ArrayType` (base + min/max/notEmpty + optional
element schema).  The `Boolean`, `Date`, `UUID`, `IBAN`, `CreditCard` and
advanced-string variants are not modelled.  The `ArrayType` slots
`isUnique`, `containsValue` and `customValidation` and the `ObjectType`
slot `customValidation` are not modelled (unset in every embedded
configuration). -/
inductive FieldType where
  | str (cfg : StringType)
  | num (cfg : NumberType)
  | obj (base : BaseType) (shape : FieldShape)
  | arr (base : BaseType) (minLength maxLength : Option Int)
        (isNotEmpty : Bool) (elem : ElemSchema)

/-- A `map[string]core.Type` shape, in one admissible iteration order. -/
inductive FieldShape where
  | nil
  | cons (name : GoStr) (t : FieldType) (rest : FieldShape)

/-- The `elementSchema core.Type` slot of `ArrayType` (nil or a Type). -/
inductive ElemSchema where
  | noSchema
  | withSchema (t : FieldType)

end

/-- The embedded `core.BaseType` of a Type (each variant embeds one). -/
def FieldType.baseOf : FieldType → BaseType
  | .str c => c.base
  | .num c => c.base
  | .obj b _ => b
  | .arr b _ _ _ _ => b

mutual

/-- Source `Type.Transform` dispatch: `StringType` and `NumberType` use
`BaseType.Transform` unchanged; `ObjectType.Transform` (object.go lines
107-136) recurses into the declared children and passes unknown keys
through; `ArrayType.Transform` (array.go lines 88-114) transforms each
element through the element schema when one is set. -/
def transformType : FieldType → GoValue → Except GoStr GoValue
  | .str c, v => c.base.transform v
  | .num c, v => c.base.transform v
  | .obj b shape, v =>
    match b.transform v with
    | .error e => .error e
    | .ok v2 =>
      if v2.isNil then .ok .vNil
      else match v2 with
        | .vMap data =>
          match transformShape shape data with
          | .error e => .error e
          | .ok td => .ok (.vMap (td ++ data.filter (fun kv => (lookupA td kv.1).isNone)))
        | _ => .error (gs "nesne (object) tipinde olmalıdır")
  | .arr b _ _ _ elem, v =>
    match b.transform v with
    | .error e => .error e
    | .ok v2 =>
      if v2.isNil then .ok .vNil
      else match v2 with
        | .vList xs =>
          match elem with
          | .noSchema => .ok (.vList xs)
          | .withSchema t =>
            match transformElems t xs 0 with
            | .error e => .error e
            | .ok ys => .ok (.vList ys)
        | _ => .error (gs "dizi (array) tipinde olmalıdır")
termination_by t _ => (sizeOf t, 0)

/-- The child loop of `ObjectType.Transform`: transform each declared
child's sub-value, wrapping a failure as `alan '<field>': <err>`. -/
def transformShape : FieldShape → AssocMap → Except GoStr AssocMap
  | .nil, _ => .ok []
  | .cons f t rest, data =>
    match transformType t (mapGet data f) with
    | .error e => .error (gs "alan '" ++ f ++ gs "': " ++ e)
    | .ok tv =>
      match transformShape rest data with
      | .error e => .error e
      | .ok td => .ok ((f, tv) :: td)
termination_by sh _ => (sizeOf sh, 0)

/-- The element loop of `ArrayType.Transform`: transform each element,
wrapping a failure as `dizi index <i>: <err>`. -/
def transformElems : FieldType → List GoValue → Nat → Except GoStr (List GoValue)
  | _, [], _ => .ok []
  | t, x :: rest, i =>
    match transformType t x with
    | .error e => .error (gs "dizi index " ++ natDigits i ++ gs ": " ++ e)
    | .ok y =>
      match transformElems t rest (i + 1) with
      | .error e => .error e
      | .ok ys => .ok (y :: ys)
termination_by t xs _ => (sizeOf t, xs.length)

end

/-- The array minLength check (array.go lines 182-184). -/
def arrMinStep (minL : Option Int) (f fieldName : GoStr) (n : Nat) (r : VResult) : VResult :=
  match minL with
  | some m => if (n : Int) < m then r.addError f (msgArrMin fieldName m) else r
  | none => r

/-- The array maxLength check (array.go lines 185-187). -/
def arrMaxStep (maxL : Option Int) (f fieldName : GoStr) (n : Nat) (r : VResult) : VResult :=
  match maxL with
  | some m => if (n : Int) > m then r.addError f (msgArrMax fieldName m) else r
  | none => r

/-- The array notEmpty check (array.go lines 190-192). -/
def arrNotEmptyStep (nEmpty : Bool) (f fieldName : GoStr) (n : Nat) (r : VResult) : VResult :=
  if nEmpty && n == 0 then r.addError f (msgNotEmpty fieldName) else r

mutual

/-- Source `Type.Validate` dispatch: `StringType.Validate`, `NumberType.Validate`,
`ObjectType.Validate` (object.go lines 144-168) and `ArrayType.Validate`
(array.go lines 165-229).  Every variant starts with the required check and
returns early when the shared result already holds any error. -/
def validateType : FieldType → GoStr → GoValue → VResult → VResult
  | .str c, f, v, r => strValidate c f v r
  | .num c, f, v, r => numValidate c f v r
  | .obj b shape, f, v, r =>
    let r1 := b.validate f v r
    if r1.hasErrors then r1
    else if v.isNil then r1
    else match v with
      | .vMap data => validateShape shape f data r1
      | _ => r1.addError f (msgObject (b.getLabel f))
  | .arr b minL maxL nEmpty elem, f, v, r =>
    let r1 := b.validate f v r
    if r1.hasErrors then r1
    else if v.isNil then r1
    else match v with
      | .vList xs =>
        let fieldName := b.getLabel f
        let r4 := arrNotEmptyStep nEmpty f fieldName xs.length
          (arrMaxStep maxL f fieldName xs.length
            (arrMinStep minL f fieldName xs.length r1))
        match elem with
        | .noSchema => r4
        | .withSchema t => validateElems t f xs 0 r4
      | _ => r1.addError f (msgArrType (b.getLabel f))
termination_by t _ _ _ => (sizeOf t, 0)

/-- The child loop of `ObjectType.Validate`: validate each declared child
at the dotted path `field.subField`, into the same shared result. -/
def validateShape : FieldShape → GoStr → AssocMap → VResult → VResult
  | .nil, _, _, r => r
  | .cons sub t rest, f, data, r =>
    validateShape rest f data (validateType t (f ++ gs "." ++ sub) (mapGet data sub) r)
termination_by sh _ _ _ => (sizeOf sh, 0)

/-- The element loop of `ArrayType.Validate`: validate each element at the
indexed path `field[i]`, into the same shared result. -/
def validateElems : FieldType → GoStr → List GoValue → Nat → VResult → VResult
  | _, _, [], _, r => r
  | t, f, x :: rest, i, r =>
    validateElems t f rest (i + 1)
      (validateType t (f ++ gs "[" ++ natDigits i ++ gs "]") x r)
termination_by t _ xs _ _ => (sizeOf t, xs.length)

end

-- ---------------------------------------------------------------------------
-- pkg/validation/schema.go : ValidationSchema
-- ---------------------------------------------------------------------------

mutual

/-- Source `validation.ValidationSchema`: the field shape (one admissible
iteration order), the ordered cross-validator list (each a
`func(map[string]any) error`, modelled as `AssocMap → Option GoStr` with
`some msg` for a non-nil error), and the ordered `When` rules.  A rule's
`callback func() core.Schema` factory is modelled by the schema it
produces (`Validate` invokes the factory exactly when the rule fires). -/
inductive VSchema where
  | mk (shape : FieldShape) (cross : List (AssocMap → Option GoStr)) (conds : CondList)

/-- The ordered `conditionalRules` list of a schema. -/
inductive CondList where
  | nil
  | cons (field : GoStr) (expected : GoValue) (callback : VSchema) (rest : CondList)

end

/-- The shape of a schema. -/
def VSchema.shape : VSchema → FieldShape
  | .mk sh _ _ => sh

/-- The cross-validator list of a schema. -/
def VSchema.cross : VSchema → List (AssocMap → Option GoStr)
  | .mk _ c _ => c

/-- The conditional-rule list of a schema. -/
def VSchema.conds : VSchema → CondList
  | .mk _ _ c => c

/-- Step 1 of `ValidationSchema.Validate` (schema.go lines 172-181): for
each shape field read `data[field]` and run `Transform`; a failure records
`Dönüşüm hatası: <err>` against the field and skips it, a success writes
the transformed value into the fresh `transformedData` map.  The caller's
`data` map is threaded through unchanged and returned, making the pass's
effect on it explicit. -/
def transformPass : FieldShape → AssocMap → AssocMap → VResult → (AssocMap × VResult × AssocMap)
  | .nil, data, td, r => (td, r, data)
  | .cons f t rest, data, td, r =>
    let value := mapGet data f
    match transformType t value with
    | .error e => transformPass rest data td (r.addError f (msgTransformErr e))
    | .ok tv => transformPass rest data (mapSet td f tv) r

/-- Step 2 of `ValidationSchema.Validate` (schema.go lines 183-186): run
each field's `Validate` on its transformed value (nil when the transform
failed), all into the same shared result. -/
def fieldPass : FieldShape → AssocMap → VResult → VResult
  | .nil, _, r => r
  | .cons f t rest, td, r => fieldPass rest td (validateType t f (mapGet td f) r)

/-- The inner merge loop of step 3: append every message of one sub-result
bucket list into the shared result under the same keys. -/
def addMsgs : GoStr → List GoStr → VResult → VResult
  | _, [], r => r
  | f, m :: ms, r => addMsgs f ms (r.addError f m)

/-- The outer merge loop of step 3 (`for f, msgs := range subResult.Errors()`). -/
def mergeErrors : List (GoStr × List GoStr) → VResult → VResult
  | [], r => r
  | (f, msgs) :: rest, r => mergeErrors rest (addMsgs f msgs r)

/-- Step 4 of `ValidationSchema.Validate` (schema.go lines 206-213): run
every cross-validator in order on the transformed map, recording each
non-nil error under the `_cross_validation` pseudo-field.  (The caller
only reaches this pass on a result with zero errors.) -/
def crossPass : List (AssocMap → Option GoStr) → AssocMap → VResult → VResult
  | [], _, r => r
  | fn :: rest, td, r =>
    match fn td with
    | Option.some e => crossPass rest td (r.addError (gs "_cross_validation") e)
    | Option.none => crossPass rest td r

mutual

/-- Step 3 of `ValidationSchema.Validate` (schema.go lines 188-204): for
each `When` rule in order, if the trigger field exists in the transformed
map and equals the expected value, validate the transformed map against
the rule's sub-schema and merge every sub-result error into the shared
result. -/
def runConds : CondList → AssocMap → VResult → VResult
  | .nil, _, r => r
  | .cons f expct cb rest, td, r =>
    match lookupA td f with
    | Option.none => runConds rest td r
    | Option.some val =>
      if goEq val expct then
        let subResult := (VSchema.validate cb td).1
        let r2 := if subResult.hasErrors then mergeErrors subResult.errors r else r
        runConds rest td r2
      else runConds rest td r

/-- Source `ValidationSchema.Validate` (schema.go lines 168-221): transform pass,
field pass, conditional pass, the cross-field pass gated on a result with
zero errors, then `SetValidData` on a still-error-free result.  Returns
the result together with the caller's `data` map as left by the call. -/
def VSchema.validate : VSchema → AssocMap → VResult × AssocMap
  | .mk shape cross conds, data =>
    let step1 := transformPass shape data [] newResult
    let td := step1.1
    let r2 := fieldPass shape td step1.2.1
    let r3 := runConds conds td r2
    let r4 := if r3.hasErrors then r3 else crossPass cross td r3
    let r5 := if r4.hasErrors then r4 else r4.setValidData td
    (r5, step1.2.2)

end

-- ---------------------------------------------------------------------------
-- rules (payment file) : luhnCheck, IsValidCreditCard, IsValidIBAN
-- ---------------------------------------------------------------------------

/-- The loop of `luhnCheck`: walk the string left to right carrying the sum
and the doubling flag; `strconv.Atoi` on a single character succeeds
exactly on an ASCII digit, and a failure aborts the whole check
(`none`). -/
def luhnLoop : GoStr → Nat → Bool → Option Nat
  | [], sum, _ => some sum
  | c :: rest, sum, isEvenIndex =>
    if isDigitCh c then
      let digit := c.toNat - '0'.toNat
      let digit := if isEvenIndex then (if digit * 2 > 9 then digit * 2 - 9 else digit * 2) else digit
      luhnLoop rest (sum + digit) (!isEvenIndex)
    else none

/-- Source `luhnCheck`: seed the doubling flag with the parity of `len(number)`
(on an all-digit string the byte length equals the character count; on any
other string the loop aborts regardless of the seed), double every flagged
digit subtracting 9 above 9, and accept on a sum divisible by 10. -/
def luhnCheck (number : GoStr) : Bool :=
  match luhnLoop number 0 (number.length % 2 == 0) with
  | some sum => sum % 10 == 0
  | none => false

/-- Card pattern `visa = ^4[0-9]{12}(?:[0-9]{3})?$`. -/
def visaMatch (n : GoStr) : Bool :=
  (n.length == 13 || n.length == 16)
  && (match n with | c :: _ => c = '4' | [] => false)
  && n.all isDigitCh

/-- Card pattern `mastercard = ^5[1-5][0-9]{14}$`. -/
def mastercardMatch (n : GoStr) : Bool :=
  n.length == 16
  && (match n with | a :: b :: _ => a = '5' && '1' ≤ b && b ≤ '5' | _ => false)
  && n.all isDigitCh

/-- Card pattern `amex = ^3[47][0-9]{13}$`. -/
def amexMatch (n : GoStr) : Bool :=
  n.length == 15
  && (match n with | a :: b :: _ => a = '3' && (b = '4' || b = '7') | _ => false)
  && n.all isDigitCh

/-- The `patterns` map lookup of `IsValidCreditCard`. -/
def cardPatterns (cardType : GoStr) : Option (GoStr → Bool) :=
  if cardType = gs "visa" then some visaMatch
  else if cardType = gs "mastercard" then some mastercardMatch
  else if cardType = gs "amex" then some amexMatch
  else none

/-- Source `IsValidCreditCard`: strip every non-digit character
(`regexp \D` replaced by the empty string), check the brand pattern when a
card type is given (an unknown type fails), then run the Luhn check on the
stripped digits. -/
def IsValidCreditCard (cardNumber cardType : GoStr) : Bool :=
  let number := cardNumber.filter isDigitCh
  if cardType ≠ [] then
    match cardPatterns cardType with
    | none => false
    | some pat => if !pat number then false else luhnCheck number
  else luhnCheck number

/-- Source `[A-Z]`. -/
def isUpperCh (c : Char) : Bool := 'A' ≤ c && c ≤ 'Z'

/-- Source `strings.ToUpper` on the ASCII range (the engine's IBAN alphabet; the
Unicode case table beyond ASCII is not modelled). -/
def goToUpper (c : Char) : Char :=
  if 'a' ≤ c && c ≤ 'z' then Char.ofNat (c.toNat - 32) else c

/-- The `ibanCountryLengths` map. -/
def ibanCountryLengths (cc : GoStr) : Option Nat :=
  if cc = gs "TR" then some 26
  else if cc = gs "DE" then some 22
  else if cc = gs "GB" then some 22
  else if cc = gs "FR" then some 27
  else if cc = gs "IT" then some 27
  else if cc = gs "NL" then some 18
  else none

/-- The coarse format regex `^[A-Z]{2}\d{2}[A-Z0-9]{4,}$`. -/
def ibanFormatMatch (s : GoStr) : Bool :=
  match s with
  | a :: b :: c :: d :: rest =>
    isUpperCh a && isUpperCh b && isDigitCh c && isDigitCh d
    && rest.length ≥ 4 && rest.all (fun ch => isUpperCh ch || isDigitCh ch)
  | _ => false

/-- The conversion step of `IsValidIBAN`: a letter becomes the decimal
digits of `int(char - 'A' + 10)` (A=10 … Z=35), any other character stays
itself. -/
def ibanCharConv (c : Char) : GoStr :=
  if isAlphaCh c then intToStr ((c.toNat : Int) - ('A'.toNat : Int) + 10) else [c]

/-- Decimal digit parse of a non-empty all-digit string. -/
def decStrToNat : GoStr → Option Nat
  | [] => none
  | ds =>
    if ds.all isDigitCh then
      some (ds.foldl (fun acc c => acc * 10 + (c.toNat - '0'.toNat)) 0)
    else none

/-- Source `big.Int.SetString(s, 10)`: optional sign, then a non-empty digit
string; arbitrary precision. -/
def bigIntSetString : GoStr → Option Int
  | '+' :: rest => (decStrToNat rest).map (fun n => (n : Int))
  | '-' :: rest => (decStrToNat rest).map (fun n => -(n : Int))
  | s => (decStrToNat s).map (fun n => (n : Int))

/-- The checksum tail of `IsValidIBAN` after normalization and the length
check: coarse format, move the first four characters to the end, convert
letters to their numeric values, parse the decimal string as a big integer
and accept on remainder 1 modulo 97 (`big.Int.Mod` is Euclidean, as is
`Int.emod`). -/
def ibanChecksumOk (iban : GoStr) : Bool :=
  if !ibanFormatMatch iban then false
  else
    let rearranged := iban.drop 4 ++ iban.take 4
    let converted := (rearranged.map ibanCharConv).flatten
    match bigIntSetString converted with
    | none => false
    | some n => n % 97 == 1

/-- Source `IsValidIBAN`: strip spaces and uppercase, enforce the per-country
fixed length when a country code is given (an unknown code fails), then
run the mod-97 checksum. -/
def IsValidIBAN (iban cc : GoStr) : Bool :=
  let iban := (iban.filter (fun c => c ≠ ' ')).map goToUpper
  if cc ≠ [] then
    match ibanCountryLengths cc with
    | none => false
    | some expectedLength =>
      if goLen iban ≠ expectedLength then false else ibanChecksumOk iban
  else ibanChecksumOk iban

-- ---------------------------------------------------------------------------
-- Result-accumulation lemmas
-- ---------------------------------------------------------------------------

theorem lookupA_addToBucket (l : List (GoStr × List GoStr)) (g m f : GoStr) :
    lookupA (addToBucket l g m) f =
      if g = f then some ((lookupA l f).getD [] ++ [m]) else lookupA l f := by
  induction l with
  | nil =>
    simp only [addToBucket, lookupA]
    split <;> simp
  | cons hd tl ih =>
    obtain ⟨k, ms⟩ := hd
    simp only [addToBucket]
    by_cases hkg : k = g
    · subst hkg
      simp only [if_pos rfl, lookupA]
      by_cases hkf : k = f
      · subst hkf; simp
      · simp [hkf]
    · simp only [if_neg hkg, lookupA]
      by_cases hkf : k = f
      · subst hkf
        have : ¬ g = k := fun h => hkg h.symm
        simp [this]
      · simp [hkf, ih]

theorem bucket_addError (r : VResult) (g m f : GoStr) :
    (r.addError g m).bucket f =
      if g = f then r.bucket f ++ [m] else r.bucket f := by
  simp only [VResult.bucket, VResult.addError, lookupA_addToBucket]
  split <;> simp

theorem bucket_addMsgs (g : GoStr) (l : List GoStr) (r : VResult) (f : GoStr) :
    (addMsgs g l r).bucket f =
      if g = f then r.bucket f ++ l else r.bucket f := by
  induction l generalizing r with
  | nil => simp [addMsgs]
  | cons m ms ih =>
    simp only [addMsgs, ih, bucket_addError]
    split <;> simp

theorem validData_addError (r : VResult) (f m : GoStr) :
    (r.addError f m).validData = r.validData := rfl

theorem validData_addMsgs (f : GoStr) (l : List GoStr) (r : VResult) :
    (addMsgs f l r).validData = r.validData := by
  induction l generalizing r with
  | nil => rfl
  | cons m ms ih => simp [addMsgs, ih, validData_addError]

theorem addError_eq_addMsgs (r : VResult) (f m : GoStr) :
    r.addError f m = addMsgs f [m] r := rfl

theorem addMsgs_addMsgs (f : GoStr) (l₁ l₂ : List GoStr) (r : VResult) :
    addMsgs f l₂ (addMsgs f l₁ r) = addMsgs f (l₁ ++ l₂) r := by
  induction l₁ generalizing r with
  | nil => rfl
  | cons m ms ih => simp [addMsgs, ih]

theorem mem_keys_addToBucket (l : List (GoStr × List GoStr)) (g m k : GoStr)
    (h : k ∈ (addToBucket l g m).map Prod.fst) :
    k ∈ l.map Prod.fst ∨ k = g := by
  induction l with
  | nil =>
    simp only [addToBucket, List.map, List.mem_singleton] at h
    exact Or.inr h
  | cons hd tl ih =>
    obtain ⟨k', ms⟩ := hd
    simp only [addToBucket] at h
    by_cases hk : k' = g
    · simp only [if_pos hk, List.map, List.mem_cons] at h
      rcases h with h | h
      · exact Or.inl (by simp [h])
      · exact Or.inl (by simp [h])
    · simp only [if_neg hk, List.map, List.mem_cons] at h
      rcases h with h | h
      · exact Or.inl (by simp [h])
      · rcases ih h with h' | h'
        · exact Or.inl (by simp [h'])
        · exact Or.inr h'

theorem lookupA_eq_none_iff {α : Type} (l : List (GoStr × α)) (f : GoStr) :
    lookupA l f = none ↔ f ∉ l.map Prod.fst := by
  induction l with
  | nil => simp [lookupA]
  | cons hd tl ih =>
    obtain ⟨k, v⟩ := hd
    simp only [lookupA, List.map, List.mem_cons]
    by_cases hk : k = f
    · subst hk
      rw [if_pos rfl]
      constructor
      · intro h; exact absurd h (by simp)
      · intro h; exact absurd (Or.inl rfl) h
    · simp only [if_neg hk, ih]
      constructor
      · intro h hmem
        rcases hmem with h' | h'
        · exact hk h'.symm
        · exact h h'
      · intro h h'
        exact h (Or.inr h')

theorem addToBucket_ne_nil (l : List (GoStr × List GoStr)) (f m : GoStr) :
    addToBucket l f m ≠ [] := by
  cases l with
  | nil => simp [addToBucket]
  | cons hd tl =>
    obtain ⟨k, ms⟩ := hd
    simp only [addToBucket]
    split <;> simp

theorem hasErrors_addError (r : VResult) (f m : GoStr) :
    (r.addError f m).hasErrors = true := by
  simp only [VResult.hasErrors, VResult.addError, gt_iff_lt, decide_eq_true_eq]
  have := addToBucket_ne_nil r.errors f m
  exact List.length_pos.mpr this

theorem hasErrors_false_iff (r : VResult) :
    r.hasErrors = false ↔ r.errors = [] := by
  simp only [VResult.hasErrors, gt_iff_lt, decide_eq_false_iff_not, not_lt,
    Nat.le_zero, List.length_eq_zero]

theorem hasErrors_addMsgs_of (f : GoStr) (l : List GoStr) (r : VResult)
    (h : r.hasErrors = true) : (addMsgs f l r).hasErrors = true := by
  induction l generalizing r with
  | nil => exact h
  | cons m ms ih => exact ih _ (hasErrors_addError r f m)

theorem mem_bucket_hasErrors (r : VResult) (f x : GoStr) (h : x ∈ r.bucket f) :
    r.hasErrors = true := by
  by_contra hfalse
  have hne : r.hasErrors = false := by
    cases hh : r.hasErrors
    · rfl
    · exact absurd hh hfalse
  have : r.errors = [] := (hasErrors_false_iff r).mp hne
  simp [VResult.bucket, this, lookupA] at h

/-- Source `r'` extends `r`: same sanitized data, every bucket extended only by
appending, and every new error key satisfies `P`. -/
def RExt (P : GoStr → Prop) (r r' : VResult) : Prop :=
  r'.validData = r.validData
  ∧ (∀ f, ∃ extra, r'.bucket f = r.bucket f ++ extra)
  ∧ (∀ k, k ∈ r'.errors.map Prod.fst → k ∈ r.errors.map Prod.fst ∨ P k)

theorem rext_refl (P : GoStr → Prop) (r : VResult) : RExt P r r :=
  ⟨rfl, fun f => ⟨[], by simp⟩, fun _ h => Or.inl h⟩

theorem rext_trans {P : GoStr → Prop} {r₁ r₂ r₃ : VResult}
    (h₁ : RExt P r₁ r₂) (h₂ : RExt P r₂ r₃) : RExt P r₁ r₃ := by
  obtain ⟨hv₁, hb₁, hk₁⟩ := h₁
  obtain ⟨hv₂, hb₂, hk₂⟩ := h₂
  refine ⟨hv₂.trans hv₁, fun f => ?_, fun k hk => ?_⟩
  · obtain ⟨e₁, he₁⟩ := hb₁ f
    obtain ⟨e₂, he₂⟩ := hb₂ f
    exact ⟨e₁ ++ e₂, by rw [he₂, he₁, List.append_assoc]⟩
  · rcases hk₂ k hk with h | h
    · exact hk₁ k h
    · exact Or.inr h

theorem rext_mono {P Q : GoStr → Prop} (hPQ : ∀ k, P k → Q k) {r r' : VResult}
    (h : RExt P r r') : RExt Q r r' :=
  ⟨h.1, h.2.1, fun k hk => (h.2.2 k hk).imp id (hPQ k)⟩

theorem rext_addError {P : GoStr → Prop} (r : VResult) (f m : GoStr) (hf : P f) :
    RExt P r (r.addError f m) := by
  refine ⟨rfl, fun g => ?_, fun k hk => ?_⟩
  · rw [bucket_addError]
    split
    · exact ⟨[m], rfl⟩
    · exact ⟨[], by simp⟩
  · rcases mem_keys_addToBucket r.errors f m k hk with h | h
    · exact Or.inl h
    · exact Or.inr (h ▸ hf)

theorem rext_addMsgs {P : GoStr → Prop} (r : VResult) (f : GoStr) (l : List GoStr)
    (hf : P f) : RExt P r (addMsgs f l r) := by
  induction l generalizing r with
  | nil => exact rext_refl P r
  | cons m ms ih => exact rext_trans (rext_addError r f m hf) (ih _)

theorem mem_bucket_of_rext {P : GoStr → Prop} {r r' : VResult}
    (h : RExt P r r') {f x : GoStr} (hx : x ∈ r.bucket f) : x ∈ r'.bucket f := by
  obtain ⟨extra, he⟩ := h.2.1 f
  rw [he]
  exact List.mem_append_left _ hx

-- ---------------------------------------------------------------------------
-- Per-check contribution lists and normal forms
-- ---------------------------------------------------------------------------

/-- Messages contributed by the required check of `BaseType.Validate`. -/
def baseMsgs (b : BaseType) (field : GoStr) (v : GoValue) : List GoStr :=
  if b.isRequired then
    match v with
    | .vNil => [msgRequired (b.getLabel field)]
    | .vStr s => if s = [] then [msgRequired (b.getLabel field)] else []
    | _ => []
  else []

theorem base_validate_eq (b : BaseType) (field : GoStr) (v : GoValue) (r : VResult) :
    b.validate field v r = addMsgs field (baseMsgs b field v) r := by
  cases v <;>
    simp only [BaseType.validate, baseMsgs, GoValue.isNil] <;>
    cases hb : b.isRequired <;>
    simp [addMsgs] <;> split <;> simp [addMsgs]

/-- Messages contributed by the oneOf check. -/
def oneOfMsgs (s : StringType) (fieldName str : GoStr) : List GoStr :=
  if !s.allowedValues.isEmpty && !s.allowedValues.any (fun a => a = str) then
    [msgOneOf fieldName (fmtStrSlice s.allowedValues)] else []

theorem oneOfStep_eq (s : StringType) (field fieldName str : GoStr) (r : VResult) :
    oneOfStep s field fieldName str r = addMsgs field (oneOfMsgs s fieldName str) r := by
  simp only [oneOfStep, oneOfMsgs]; split <;> simp [addMsgs]

/-- Messages contributed by the alpha check. -/
def alphaMsgs (s : StringType) (fieldName str : GoStr) : List GoStr :=
  if s.isAlpha && !alphaMatch str then [msgAlpha fieldName] else []

theorem alphaStep_eq (s : StringType) (field fieldName str : GoStr) (r : VResult) :
    alphaStep s field fieldName str r = addMsgs field (alphaMsgs s fieldName str) r := by
  simp only [alphaStep, alphaMsgs]; split <;> simp [addMsgs]

/-- Messages contributed by the alphanumeric check. -/
def alnumMsgs (s : StringType) (fieldName str : GoStr) : List GoStr :=
  if s.isAlphanumeric && !alnumMatch str then [msgAlphanumeric fieldName] else []

theorem alnumStep_eq (s : StringType) (field fieldName str : GoStr) (r : VResult) :
    alnumStep s field fieldName str r = addMsgs field (alnumMsgs s fieldName str) r := by
  simp only [alnumStep, alnumMsgs]; split <;> simp [addMsgs]

/-- Messages contributed by the numeric-charset check. -/
def numericMsgs (s : StringType) (fieldName str : GoStr) : List GoStr :=
  if s.isNumeric && !numMatch str then [msgNumericString fieldName] else []

theorem numericStep_eq (s : StringType) (field fieldName str : GoStr) (r : VResult) :
    numericStep s field fieldName str r = addMsgs field (numericMsgs s fieldName str) r := by
  simp only [numericStep, numericMsgs]; split <;> simp [addMsgs]

/-- Messages contributed by the startsWith check. -/
def startsMsgs (s : StringType) (fieldName str : GoStr) : List GoStr :=
  match s.startsWith with
  | some p => if !strStarts str p then [msgStartsWith fieldName p] else []
  | none => []

theorem startsStep_eq (s : StringType) (field fieldName str : GoStr) (r : VResult) :
    startsStep s field fieldName str r = addMsgs field (startsMsgs s fieldName str) r := by
  simp only [startsStep, startsMsgs]
  cases s.startsWith <;> simp [addMsgs] <;> split <;> simp [addMsgs]

/-- Messages contributed by the endsWith check. -/
def endsMsgs (s : StringType) (fieldName str : GoStr) : List GoStr :=
  match s.endsWith with
  | some p => if !strEnds str p then [msgEndsWith fieldName p] else []
  | none => []

theorem endsStep_eq (s : StringType) (field fieldName str : GoStr) (r : VResult) :
    endsStep s field fieldName str r = addMsgs field (endsMsgs s fieldName str) r := by
  simp only [endsStep, endsMsgs]
  cases s.endsWith <;> simp [addMsgs] <;> split <;> simp [addMsgs]

/-- Messages contributed by the contains check. -/
def containsMsgs (s : StringType) (fieldName str : GoStr) : List GoStr :=
  match s.containsStr with
  | some p => if !strHas str p then [msgContains fieldName p] else []
  | none => []

theorem containsStep_eq (s : StringType) (field fieldName str : GoStr) (r : VResult) :
    containsStep s field fieldName str r = addMsgs field (containsMsgs s fieldName str) r := by
  simp only [containsStep, containsMsgs]
  cases s.containsStr <;> simp [addMsgs] <;> split <;> simp [addMsgs]

/-- Messages contributed by the custom-regex match. -/
def customRegexMsgs (s : StringType) (fieldName str : GoStr) : List GoStr :=
  match s.customRegex with
  | some re => if !re str then [msgRegex fieldName] else []
  | none => []

theorem customRegexStep_eq (s : StringType) (field fieldName str : GoStr) (r : VResult) :
    customRegexStep s field fieldName str r = addMsgs field (customRegexMsgs s fieldName str) r := by
  simp only [customRegexStep, customRegexMsgs]
  cases s.customRegex <;> simp [addMsgs] <;> split <;> simp [addMsgs]

/-- Messages contributed by the MAC check. -/
def macMsgs (s : StringType) (fieldName str : GoStr) : List GoStr :=
  if s.isMAC && !macMatch str then [msgMAC fieldName] else []

theorem macStep_eq (s : StringType) (field fieldName str : GoStr) (r : VResult) :
    macStep s field fieldName str r = addMsgs field (macMsgs s fieldName str) r := by
  simp only [macStep, macMsgs]; split <;> simp [addMsgs]

/-- Messages contributed by the hex check. -/
def hexMsgs (s : StringType) (fieldName str : GoStr) : List GoStr :=
  if s.isHex && !hexMatch str then [msgHex fieldName] else []

theorem hexStep_eq (s : StringType) (field fieldName str : GoStr) (r : VResult) :
    hexStep s field fieldName str r = addMsgs field (hexMsgs s fieldName str) r := by
  simp only [hexStep, hexMsgs]; split <;> simp [addMsgs]

/-- Messages contributed by the minLength check. -/
def minLenMsgs (s : StringType) (fieldName str : GoStr) : List GoStr :=
  match s.minLength with
  | some m => if (goLen str : Int) < m then [msgMinLength fieldName m] else []
  | none => []

theorem minLenStep_eq (s : StringType) (field fieldName str : GoStr) (r : VResult) :
    minLenStep s field fieldName str r = addMsgs field (minLenMsgs s fieldName str) r := by
  simp only [minLenStep, minLenMsgs]
  cases s.minLength <;> simp [addMsgs] <;> split <;> simp [addMsgs]

/-- Messages contributed by the maxLength check. -/
def maxLenMsgs (s : StringType) (fieldName str : GoStr) : List GoStr :=
  match s.maxLength with
  | some m => if (goLen str : Int) > m then [msgMaxLength fieldName m] else []
  | none => []

theorem maxLenStep_eq (s : StringType) (field fieldName str : GoStr) (r : VResult) :
    maxLenStep s field fieldName str r = addMsgs field (maxLenMsgs s fieldName str) r := by
  simp only [maxLenStep, maxLenMsgs]
  cases s.maxLength <;> simp [addMsgs] <;> split <;> simp [addMsgs]

/-- Messages contributed by the checks after the url block, in source
order, with the invalid-custom-regex early return cutting off the custom
regex, MAC and hex checks. -/
def strTailMsgs (s : StringType) (fieldName str : GoStr) : List GoStr :=
  oneOfMsgs s fieldName str ++ alphaMsgs s fieldName str
  ++ alnumMsgs s fieldName str ++ numericMsgs s fieldName str
  ++ startsMsgs s fieldName str ++ endsMsgs s fieldName str
  ++ containsMsgs s fieldName str
  ++ (match s.regexError with
      | some e => [fieldName ++ gs ": " ++ e]
      | none =>
        customRegexMsgs s fieldName str ++ macMsgs s fieldName str
        ++ hexMsgs s fieldName str)

theorem strChecksTail_eq (s : StringType) (field fieldName str : GoStr) (r : VResult) :
    strChecksTail s field fieldName str r = addMsgs field (strTailMsgs s fieldName str) r := by
  simp only [strChecksTail, strTailMsgs]
  cases hre : s.regexError <;>
    simp [oneOfStep_eq, alphaStep_eq, alnumStep_eq, numericStep_eq, startsStep_eq,
      endsStep_eq, containsStep_eq, customRegexStep_eq, macStep_eq, hexStep_eq,
      addMsgs_addMsgs, addError_eq_addMsgs, List.append_assoc]

/-- Messages contributed by the url block, with its early returns cutting
off all later checks. -/
def strUrlMsgs (s : StringType) (fieldName str : GoStr) : List GoStr :=
  if s.urlRegex then
    if strHas str (gs " ") then [msgURL fieldName]
    else if !strStarts str (gs "http://") && !strStarts str (gs "https://") then
      [msgURL fieldName]
    else if goLen (trimPre (trimPre str (gs "https://")) (gs "http://")) = 0 then
      [msgURL fieldName]
    else
      (if !urlMatch str then [msgURL fieldName] else []) ++ strTailMsgs s fieldName str
  else strTailMsgs s fieldName str

theorem strChecksFromUrl_eq (s : StringType) (field fieldName str : GoStr) (r : VResult) :
    strChecksFromUrl s field fieldName str r = addMsgs field (strUrlMsgs s fieldName str) r := by
  simp only [strChecksFromUrl, strUrlMsgs]
  split_ifs <;>
    first
      | exact addError_eq_addMsgs r field (msgURL fieldName)
      | simp only [strChecksTail_eq, addError_eq_addMsgs, addMsgs_addMsgs,
          List.nil_append]

/-- Messages contributed by the email block, with its early returns
cutting off all later checks. -/
def strEmailMsgs (s : StringType) (fieldName str : GoStr) : List GoStr :=
  if s.emailRegex then
    if strHas str (gs "..") then [msgEmail fieldName]
    else if emailTldShort str then [msgEmail fieldName]
    else
      (if !emailMatch str then [msgEmail fieldName] else []) ++ strUrlMsgs s fieldName str
  else strUrlMsgs s fieldName str

theorem strChecksFromEmail_eq (s : StringType) (field fieldName str : GoStr) (r : VResult) :
    strChecksFromEmail s field fieldName str r = addMsgs field (strEmailMsgs s fieldName str) r := by
  simp only [strChecksFromEmail, strEmailMsgs]
  split_ifs <;>
    first
      | exact addError_eq_addMsgs r field (msgEmail fieldName)
      | simp only [strChecksFromUrl_eq, addError_eq_addMsgs, addMsgs_addMsgs,
          List.nil_append]

/-- All messages a string-field validate pass contributes on a string
value that passes the shared-result gate: min/max length then the
email/url/tail cascade. -/
def strMsgs (s : StringType) (fieldName str : GoStr) : List GoStr :=
  minLenMsgs s fieldName str ++ maxLenMsgs s fieldName str ++ strEmailMsgs s fieldName str

theorem strValidate_vStr_eq (s : StringType) (field str : GoStr) (r : VResult)
    (hb : baseMsgs s.base field (.vStr str) = []) (hr : r.hasErrors = false) :
    strValidate s field (.vStr str) r =
      addMsgs field (strMsgs s (s.base.getLabel field) str) r := by
  have h1 : s.base.validate field (.vStr str) r = r := by
    rw [base_validate_eq, hb]; rfl
  simp only [strValidate, h1, hr, GoValue.isNil, Bool.false_eq_true, if_false, strMsgs]
  rw [minLenStep_eq, maxLenStep_eq, strChecksFromEmail_eq]
  simp [addMsgs_addMsgs, List.append_assoc]

theorem strValidate_norm (s : StringType) (field : GoStr) (v : GoValue) (r : VResult) :
    ∃ msgs, strValidate s field v r = addMsgs field msgs r := by
  have hbase := base_validate_eq s.base field v r
  by_cases hh : (s.base.validate field v r).hasErrors = true
  · exact ⟨baseMsgs s.base field v, by simp only [strValidate, hh, if_true]; exact hbase⟩
  · have hh' : (s.base.validate field v r).hasErrors = false := by
      cases h : (s.base.validate field v r).hasErrors
      · rfl
      · exact absurd h hh
    cases v with
    | vStr str =>
      refine ⟨baseMsgs s.base field (.vStr str) ++ strMsgs s (s.base.getLabel field) str, ?_⟩
      simp only [strValidate, hh', Bool.false_eq_true, if_false, GoValue.isNil]
      rw [minLenStep_eq, maxLenStep_eq, strChecksFromEmail_eq, hbase]
      simp [addMsgs_addMsgs, strMsgs, List.append_assoc]
    | vNil =>
      refine ⟨baseMsgs s.base field .vNil, ?_⟩
      simp only [strValidate, hh', Bool.false_eq_true, if_false, GoValue.isNil, if_true]
      exact hbase
    | vInt n =>
      refine ⟨baseMsgs s.base field (.vInt n) ++ [msgString (s.base.getLabel field)], ?_⟩
      simp only [strValidate, hh', Bool.false_eq_true, if_false, GoValue.isNil]
      rw [hbase, addError_eq_addMsgs, addMsgs_addMsgs]
    | vBool b =>
      refine ⟨baseMsgs s.base field (.vBool b) ++ [msgString (s.base.getLabel field)], ?_⟩
      simp only [strValidate, hh', Bool.false_eq_true, if_false, GoValue.isNil]
      rw [hbase, addError_eq_addMsgs, addMsgs_addMsgs]
    | vList xs =>
      refine ⟨baseMsgs s.base field (.vList xs) ++ [msgString (s.base.getLabel field)], ?_⟩
      simp only [strValidate, hh', Bool.false_eq_true, if_false, GoValue.isNil]
      rw [hbase, addError_eq_addMsgs, addMsgs_addMsgs]
    | vMap m =>
      refine ⟨baseMsgs s.base field (.vMap m) ++ [msgString (s.base.getLabel field)], ?_⟩
      simp only [strValidate, hh', Bool.false_eq_true, if_false, GoValue.isNil]
      rw [hbase, addError_eq_addMsgs, addMsgs_addMsgs]

theorem numValidate_norm (n : NumberType) (field : GoStr) (v : GoValue) (r : VResult) :
    ∃ msgs, numValidate n field v r = addMsgs field msgs r := by
  have hbase := base_validate_eq n.base field v r
  by_cases hh : (n.base.validate field v r).hasErrors = true
  · exact ⟨baseMsgs n.base field v, by simp only [numValidate, hh, if_true]; exact hbase⟩
  · have hh' : (n.base.validate field v r).hasErrors = false := by
      cases h : (n.base.validate field v r).hasErrors
      · rfl
      · exact absurd h hh
    cases v with
    | vInt k =>
      exact ⟨baseMsgs n.base field (.vInt k), by
        simp only [numValidate, hh', Bool.false_eq_true, if_false, GoValue.isNil]
        exact hbase⟩
    | vNil =>
      exact ⟨baseMsgs n.base field .vNil, by
        simp only [numValidate, hh', Bool.false_eq_true, if_false, GoValue.isNil, if_true]
        exact hbase⟩
    | vStr str =>
      refine ⟨baseMsgs n.base field (.vStr str) ++ [msgNumeric (n.base.getLabel field)], ?_⟩
      simp only [numValidate, hh', Bool.false_eq_true, if_false, GoValue.isNil]
      rw [hbase, addError_eq_addMsgs, addMsgs_addMsgs]
    | vBool b =>
      refine ⟨baseMsgs n.base field (.vBool b) ++ [msgNumeric (n.base.getLabel field)], ?_⟩
      simp only [numValidate, hh', Bool.false_eq_true, if_false, GoValue.isNil]
      rw [hbase, addError_eq_addMsgs, addMsgs_addMsgs]
    | vList xs =>
      refine ⟨baseMsgs n.base field (.vList xs) ++ [msgNumeric (n.base.getLabel field)], ?_⟩
      simp only [numValidate, hh', Bool.false_eq_true, if_false, GoValue.isNil]
      rw [hbase, addError_eq_addMsgs, addMsgs_addMsgs]
    | vMap m =>
      refine ⟨baseMsgs n.base field (.vMap m) ++ [msgNumeric (n.base.getLabel field)], ?_⟩
      simp only [numValidate, hh', Bool.false_eq_true, if_false, GoValue.isNil]
      rw [hbase, addError_eq_addMsgs, addMsgs_addMsgs]

/-- Messages contributed by the array minLength check. -/
def arrMinMsgs (minL : Option Int) (fieldName : GoStr) (n : Nat) : List GoStr :=
  match minL with
  | some m => if (n : Int) < m then [msgArrMin fieldName m] else []
  | none => []

theorem arrMinStep_eq (minL : Option Int) (f fieldName : GoStr) (n : Nat) (r : VResult) :
    arrMinStep minL f fieldName n r = addMsgs f (arrMinMsgs minL fieldName n) r := by
  simp only [arrMinStep, arrMinMsgs]
  cases minL <;> simp [addMsgs] <;> split <;> simp [addMsgs]

/-- Messages contributed by the array maxLength check. -/
def arrMaxMsgs (maxL : Option Int) (fieldName : GoStr) (n : Nat) : List GoStr :=
  match maxL with
  | some m => if (n : Int) > m then [msgArrMax fieldName m] else []
  | none => []

theorem arrMaxStep_eq (maxL : Option Int) (f fieldName : GoStr) (n : Nat) (r : VResult) :
    arrMaxStep maxL f fieldName n r = addMsgs f (arrMaxMsgs maxL fieldName n) r := by
  simp only [arrMaxStep, arrMaxMsgs]
  cases maxL <;> simp [addMsgs] <;> split <;> simp [addMsgs]

/-- Messages contributed by the array notEmpty check. -/
def arrNotEmptyMsgs (nEmpty : Bool) (fieldName : GoStr) (n : Nat) : List GoStr :=
  if nEmpty && n == 0 then [msgNotEmpty fieldName] else []

theorem arrNotEmptyStep_eq (nEmpty : Bool) (f fieldName : GoStr) (n : Nat) (r : VResult) :
    arrNotEmptyStep nEmpty f fieldName n r = addMsgs f (arrNotEmptyMsgs nEmpty fieldName n) r := by
  simp only [arrNotEmptyStep, arrNotEmptyMsgs]; split <;> simp [addMsgs]

theorem base_validate_required (b : BaseType) (f : GoStr) (v : GoValue) (r : VResult)
    (hreq : b.isRequired = true) (hv : v = .vNil ∨ v = .vStr []) :
    b.validate f v r = r.addError f (msgRequired (b.getLabel f)) := by
  rcases hv with rfl | rfl <;> simp [BaseType.validate, GoValue.isNil, hreq]

/-- A required field given nil or the empty string records exactly the
localized required error and nothing else: every variant's validate starts
with the base required check and then returns on a result with errors. -/
theorem validateType_required (t : FieldType) (f : GoStr) (v : GoValue) (r : VResult)
    (hreq : t.baseOf.isRequired = true) (hv : v = .vNil ∨ v = .vStr []) :
    validateType t f v r = r.addError f (msgRequired (t.baseOf.getLabel f)) := by
  cases t with
  | str c =>
    have h1 : c.base.validate f v r = r.addError f (msgRequired (c.base.getLabel f)) :=
      base_validate_required c.base f v r (by simpa [FieldType.baseOf] using hreq) hv
    rw [validateType.eq_def]
    simp only [FieldType.baseOf, strValidate, h1, hasErrors_addError, if_true]
  | num c =>
    have h1 : c.base.validate f v r = r.addError f (msgRequired (c.base.getLabel f)) :=
      base_validate_required c.base f v r (by simpa [FieldType.baseOf] using hreq) hv
    rw [validateType.eq_def]
    simp only [FieldType.baseOf, numValidate, h1, hasErrors_addError, if_true]
  | obj b sh =>
    have h1 : b.validate f v r = r.addError f (msgRequired (b.getLabel f)) :=
      base_validate_required b f v r (by simpa [FieldType.baseOf] using hreq) hv
    rw [validateType.eq_def]
    simp only [FieldType.baseOf, h1, hasErrors_addError, if_true]
  | arr b minL maxL nEmpty elem =>
    have h1 : b.validate f v r = r.addError f (msgRequired (b.getLabel f)) :=
      base_validate_required b f v r (by simpa [FieldType.baseOf] using hreq) hv
    rw [validateType.eq_def]
    simp only [FieldType.baseOf, h1, hasErrors_addError, if_true]

/-- When the shared result already holds any error, every variant's
validate performs only the base required check and returns. -/
theorem validateType_skip (t : FieldType) (f : GoStr) (v : GoValue) (r : VResult)
    (h : r.hasErrors = true) :
    validateType t f v r = t.baseOf.validate f v r := by
  cases t with
  | str c =>
    have hh : (c.base.validate f v r).hasErrors = true := by
      rw [base_validate_eq]; exact hasErrors_addMsgs_of _ _ _ h
    rw [validateType.eq_def]
    simp only [FieldType.baseOf, strValidate, hh, if_true]
  | num c =>
    have hh : (c.base.validate f v r).hasErrors = true := by
      rw [base_validate_eq]; exact hasErrors_addMsgs_of _ _ _ h
    rw [validateType.eq_def]
    simp only [FieldType.baseOf, numValidate, hh, if_true]
  | obj b sh =>
    have hh : (b.validate f v r).hasErrors = true := by
      rw [base_validate_eq]; exact hasErrors_addMsgs_of _ _ _ h
    rw [validateType.eq_def]
    simp only [FieldType.baseOf, hh, if_true]
  | arr b minL maxL nEmpty elem =>
    have hh : (b.validate f v r).hasErrors = true := by
      rw [base_validate_eq]; exact hasErrors_addMsgs_of _ _ _ h
    rw [validateType.eq_def]
    simp only [FieldType.baseOf, hh, if_true]

-- ---------------------------------------------------------------------------
-- Error-key confinement: nested paths
-- ---------------------------------------------------------------------------

/-- Source `k` is the path `p` itself or extends it through a `.` or `[`
separator -- the fully-qualified-key discipline of nested validation. -/
def pathExtP (p k : GoStr) : Prop :=
  k = p ∨ ∃ c rest, k = p ++ c :: rest ∧ (c = '.' ∨ c = '[')

theorem pathExtP_self (p : GoStr) : pathExtP p p := Or.inl rfl

theorem pathExtP_absorb (p mid k : GoStr) (c : Char) (hc : c = '.' ∨ c = '[')
    (h : pathExtP (p ++ c :: mid) k) : pathExtP p k := by
  rcases h with rfl | ⟨c', rest', hk, hc'⟩
  · exact Or.inr ⟨c, mid, rfl, hc⟩
  · refine Or.inr ⟨c, mid ++ c' :: rest', ?_, hc⟩
    rw [hk]; simp

theorem gs_dot : gs "." = ['.'] := rfl

theorem gs_lbr : gs "[" = ['['] := rfl

theorem gs_rbr : gs "]" = [']'] := rfl

-- Per-constructor unfolding equations for the mutually recursive
-- validators (their wf-compiled bodies do not unfold definitionally).

theorem validateType_str (c : StringType) (f : GoStr) (v : GoValue) (r : VResult) :
    validateType (.str c) f v r = strValidate c f v r := by
  rw [validateType.eq_def]

theorem validateType_num (c : NumberType) (f : GoStr) (v : GoValue) (r : VResult) :
    validateType (.num c) f v r = numValidate c f v r := by
  rw [validateType.eq_def]

theorem validateType_obj (b : BaseType) (sh : FieldShape) (f : GoStr) (v : GoValue) (r : VResult) :
    validateType (.obj b sh) f v r =
      (if (b.validate f v r).hasErrors then b.validate f v r
       else if v.isNil then b.validate f v r
       else match v with
         | .vMap data => validateShape sh f data (b.validate f v r)
         | _ => (b.validate f v r).addError f (msgObject (b.getLabel f))) := by
  rw [validateType.eq_def]

theorem validateType_arr (b : BaseType) (minL maxL : Option Int) (nEmpty : Bool)
    (elem : ElemSchema) (f : GoStr) (v : GoValue) (r : VResult) :
    validateType (.arr b minL maxL nEmpty elem) f v r =
      (if (b.validate f v r).hasErrors then b.validate f v r
       else if v.isNil then b.validate f v r
       else match v with
         | .vList xs =>
           (match elem with
            | .noSchema =>
              arrNotEmptyStep nEmpty f (b.getLabel f) xs.length
                (arrMaxStep maxL f (b.getLabel f) xs.length
                  (arrMinStep minL f (b.getLabel f) xs.length (b.validate f v r)))
            | .withSchema t =>
              validateElems t f xs 0
                (arrNotEmptyStep nEmpty f (b.getLabel f) xs.length
                  (arrMaxStep maxL f (b.getLabel f) xs.length
                    (arrMinStep minL f (b.getLabel f) xs.length (b.validate f v r)))))
         | _ => (b.validate f v r).addError f (msgArrType (b.getLabel f))) := by
  rw [validateType.eq_def]

theorem validateShape_nil (p : GoStr) (data : AssocMap) (r : VResult) :
    validateShape .nil p data r = r := by
  rw [validateShape.eq_def]

theorem validateShape_cons (sub : GoStr) (t : FieldType) (rest : FieldShape)
    (p : GoStr) (data : AssocMap) (r : VResult) :
    validateShape (.cons sub t rest) p data r =
      validateShape rest p data (validateType t (p ++ gs "." ++ sub) (mapGet data sub) r) := by
  rw [validateShape.eq_def]

theorem validateElems_nil (t : FieldType) (p : GoStr) (i : Nat) (r : VResult) :
    validateElems t p [] i r = r := by
  rw [validateElems.eq_def]

theorem validateElems_cons (t : FieldType) (p : GoStr) (x : GoValue) (rest : List GoValue)
    (i : Nat) (r : VResult) :
    validateElems t p (x :: rest) i r =
      validateElems t p rest (i + 1)
        (validateType t (p ++ gs "[" ++ natDigits i ++ gs "]") x r) := by
  rw [validateElems.eq_def]

mutual

/-- Every variant's validate only appends errors, never touches
`validData`, and records errors only under its own path or dotted/indexed
extensions of it (the shared result passed in is otherwise preserved). -/
theorem validateType_rext (t : FieldType) (p : GoStr) (v : GoValue) (r : VResult) :
    RExt (pathExtP p) r (validateType t p v r) := by
  cases t with
  | str c =>
    rw [validateType_str]
    obtain ⟨msgs, hm⟩ := strValidate_norm c p v r
    rw [hm]
    exact rext_addMsgs r p msgs (pathExtP_self p)
  | num c =>
    rw [validateType_num]
    obtain ⟨msgs, hm⟩ := numValidate_norm c p v r
    rw [hm]
    exact rext_addMsgs r p msgs (pathExtP_self p)
  | obj b sh =>
    rw [validateType_obj]
    have hb : RExt (pathExtP p) r (b.validate p v r) := by
      rw [base_validate_eq]; exact rext_addMsgs r p _ (pathExtP_self p)
    by_cases h1 : (b.validate p v r).hasErrors = true
    · rw [if_pos h1]; exact hb
    · rw [if_neg h1]
      cases v with
      | vNil => exact hb
      | vMap data =>
        exact rext_trans hb (validateShape_rext sh p data _)
      | vStr s => exact rext_trans hb (rext_addError _ p _ (pathExtP_self p))
      | vInt n => exact rext_trans hb (rext_addError _ p _ (pathExtP_self p))
      | vBool bb => exact rext_trans hb (rext_addError _ p _ (pathExtP_self p))
      | vList xs => exact rext_trans hb (rext_addError _ p _ (pathExtP_self p))
  | arr b minL maxL nEmpty elem =>
    rw [validateType_arr]
    have hb : RExt (pathExtP p) r (b.validate p v r) := by
      rw [base_validate_eq]; exact rext_addMsgs r p _ (pathExtP_self p)
    by_cases h1 : (b.validate p v r).hasErrors = true
    · rw [if_pos h1]; exact hb
    · rw [if_neg h1]
      cases v with
      | vNil => exact hb
      | vList xs =>
        have hsteps : ∀ x : VResult, RExt (pathExtP p) x
            (arrNotEmptyStep nEmpty p (b.getLabel p) xs.length
              (arrMaxStep maxL p (b.getLabel p) xs.length
                (arrMinStep minL p (b.getLabel p) xs.length x))) := by
          intro x
          simp only [arrMinStep_eq, arrMaxStep_eq, arrNotEmptyStep_eq, addMsgs_addMsgs]
          exact rext_addMsgs x p _ (pathExtP_self p)
        cases elem with
        | noSchema => exact rext_trans hb (hsteps _)
        | withSchema t =>
          exact rext_trans (rext_trans hb (hsteps _)) (validateElems_rext t p xs 0 _)
      | vStr s => exact rext_trans hb (rext_addError _ p _ (pathExtP_self p))
      | vInt n => exact rext_trans hb (rext_addError _ p _ (pathExtP_self p))
      | vBool bb => exact rext_trans hb (rext_addError _ p _ (pathExtP_self p))
      | vMap m => exact rext_trans hb (rext_addError _ p _ (pathExtP_self p))
termination_by (sizeOf t, 0)

/-- The object child loop only appends errors at dotted extensions of the
parent path. -/
theorem validateShape_rext (sh : FieldShape) (p : GoStr) (data : AssocMap) (r : VResult) :
    RExt (pathExtP p) r (validateShape sh p data r) := by
  cases sh with
  | nil =>
    rw [validateShape_nil]
    exact rext_refl _ _
  | cons sub t rest =>
    rw [validateShape_cons]
    have heq : p ++ gs "." ++ sub = p ++ '.' :: sub := by simp [gs_dot]
    have h1 : RExt (pathExtP p) r (validateType t (p ++ gs "." ++ sub) (mapGet data sub) r) := by
      rw [heq]
      exact rext_mono (fun k hk => pathExtP_absorb p sub k '.' (Or.inl rfl) hk)
        (validateType_rext t (p ++ '.' :: sub) (mapGet data sub) r)
    exact rext_trans h1 (validateShape_rext rest p data _)
termination_by (sizeOf sh, 0)

/-- The array element loop only appends errors at indexed extensions of
the field path. -/
theorem validateElems_rext (t : FieldType) (p : GoStr) (xs : List GoValue) (i : Nat) (r : VResult) :
    RExt (pathExtP p) r (validateElems t p xs i r) := by
  cases xs with
  | nil =>
    rw [validateElems_nil]
    exact rext_refl _ _
  | cons x rest =>
    rw [validateElems_cons]
    have heq : p ++ gs "[" ++ natDigits i ++ gs "]" = p ++ '[' :: (natDigits i ++ [']']) := by
      simp [gs_lbr, gs_rbr]
    have h1 : RExt (pathExtP p) r
        (validateType t (p ++ gs "[" ++ natDigits i ++ gs "]") x r) := by
      rw [heq]
      exact rext_mono (fun k hk => pathExtP_absorb p _ k '[' (Or.inr rfl) hk)
        (validateType_rext t _ x r)
    exact rext_trans h1 (validateElems_rext t p rest (i + 1) _)
termination_by (sizeOf t, xs.length)

end

theorem transformType_str (c : StringType) (v : GoValue) :
    transformType (.str c) v = c.base.transform v := by
  rw [transformType.eq_def]

theorem transformType_num (c : NumberType) (v : GoValue) :
    transformType (.num c) v = c.base.transform v := by
  rw [transformType.eq_def]

theorem runConds_nil (td : AssocMap) (r : VResult) : runConds .nil td r = r := by
  rw [runConds.eq_def]

theorem runConds_cons (f : GoStr) (expct : GoValue) (cb : VSchema) (rest : CondList)
    (td : AssocMap) (r : VResult) :
    runConds (.cons f expct cb rest) td r =
      (match lookupA td f with
       | Option.none => runConds rest td r
       | Option.some val =>
         if goEq val expct then
           runConds rest td
             (if (VSchema.validate cb td).1.hasErrors then
               mergeErrors (VSchema.validate cb td).1.errors r
              else r)
         else runConds rest td r) := by
  rw [runConds.eq_def]

theorem validate_mk (sh : FieldShape) (cross : List (AssocMap → Option GoStr))
    (conds : CondList) (d : AssocMap) :
    VSchema.validate (.mk sh cross conds) d =
      (let step1 := transformPass sh d [] newResult
       let r2 := fieldPass sh step1.1 step1.2.1
       let r3 := runConds conds step1.1 r2
       let r4 := if r3.hasErrors then r3 else crossPass cross step1.1 r3
       (if r4.hasErrors then r4 else r4.setValidData step1.1, step1.2.2)) := by
  rw [VSchema.validate.eq_def]

-- ---------------------------------------------------------------------------
-- Schema-pass lemmas
-- ---------------------------------------------------------------------------

/-- Membership of a (name, Type) binding in a shape. -/
def shapeHas : FieldShape → GoStr → FieldType → Prop
  | .nil, _, _ => False
  | .cons n t rest, f, t' => (n = f ∧ t = t') ∨ shapeHas rest f t'

/-- The transformed map built by step 1. -/
def schemaTransformed (s : VSchema) (d : AssocMap) : AssocMap :=
  (transformPass s.shape d [] newResult).1

/-- The result after step 1 (transform errors only). -/
def schemaStep1 (s : VSchema) (d : AssocMap) : VResult :=
  (transformPass s.shape d [] newResult).2.1

/-- The result after step 2 (field validation). -/
def schemaStep2 (s : VSchema) (d : AssocMap) : VResult :=
  fieldPass s.shape (schemaTransformed s d) (schemaStep1 s d)

/-- The result after step 3 (conditional sub-schemas merged). -/
def schemaStep3 (s : VSchema) (d : AssocMap) : VResult :=
  runConds s.conds (schemaTransformed s d) (schemaStep2 s d)

/-- The result after step 4 (the gated cross-field pass). -/
def schemaStep4 (s : VSchema) (d : AssocMap) : VResult :=
  if (schemaStep3 s d).hasErrors then schemaStep3 s d
  else crossPass s.cross (schemaTransformed s d) (schemaStep3 s d)

theorem validate_fst (s : VSchema) (d : AssocMap) :
    (VSchema.validate s d).1 =
      (if (schemaStep4 s d).hasErrors then schemaStep4 s d
       else (schemaStep4 s d).setValidData (schemaTransformed s d)) := by
  cases s with
  | mk sh cross conds =>
    rw [validate_mk]
    simp only [schemaStep4, schemaStep3, schemaStep2, schemaStep1, schemaTransformed,
      VSchema.shape, VSchema.cross, VSchema.conds]

theorem validate_snd (s : VSchema) (d : AssocMap) :
    (VSchema.validate s d).2 = (transformPass s.shape d [] newResult).2.2 := by
  cases s with
  | mk sh cross conds =>
    rw [validate_mk]
    simp only [VSchema.shape]

theorem transformPass_data (sh : FieldShape) (d td : AssocMap) (r : VResult) :
    (transformPass sh d td r).2.2 = d := by
  cases sh with
  | nil => rfl
  | cons f t rest =>
    simp only [transformPass]
    cases transformType t (mapGet d f) with
    | error e => exact transformPass_data rest d _ _
    | ok tv => exact transformPass_data rest d _ _
termination_by sizeOf sh

theorem transformPass_rext (sh : FieldShape) (d td : AssocMap) (r : VResult) :
    RExt (fun k => ∃ t, shapeHas sh k t) r (transformPass sh d td r).2.1 := by
  cases sh with
  | nil => exact rext_refl _ _
  | cons f t rest =>
    simp only [transformPass]
    cases transformType t (mapGet d f) with
    | error e =>
      refine rext_trans (rext_addError r f (msgTransformErr e) ⟨t, Or.inl ⟨rfl, rfl⟩⟩)
        (rext_mono ?_ (transformPass_rext rest d _ _))
      rintro k ⟨t', hk⟩
      exact ⟨t', Or.inr hk⟩
    | ok tv =>
      refine rext_mono ?_ (transformPass_rext rest d _ _)
      rintro k ⟨t', hk⟩
      exact ⟨t', Or.inr hk⟩
termination_by sizeOf sh

theorem fieldPass_rext (sh : FieldShape) (td : AssocMap) (r : VResult) :
    RExt (fun k => ∃ f t, shapeHas sh f t ∧ pathExtP f k) r (fieldPass sh td r) := by
  cases sh with
  | nil => exact rext_refl _ _
  | cons f t rest =>
    simp only [fieldPass]
    refine rext_trans
      (rext_mono ?_ (validateType_rext t f (mapGet td f) r))
      (rext_mono ?_ (fieldPass_rext rest td _))
    · intro k hk
      exact ⟨f, t, Or.inl ⟨rfl, rfl⟩, hk⟩
    · rintro k ⟨f', t', hmem, hp⟩
      exact ⟨f', t', Or.inr hmem, hp⟩
termination_by sizeOf sh

theorem addMsgs_rext_any (f : GoStr) (l : List GoStr) (r : VResult) :
    RExt (fun _ => True) r (addMsgs f l r) :=
  rext_addMsgs r f l trivial

theorem mergeErrors_rext (l : List (GoStr × List GoStr)) (r : VResult) :
    RExt (fun _ => True) r (mergeErrors l r) := by
  induction l generalizing r with
  | nil => exact rext_refl _ _
  | cons hd tl ih =>
    obtain ⟨f, msgs⟩ := hd
    exact rext_trans (addMsgs_rext_any f msgs r) (ih _)

theorem runConds_rext (c : CondList) (td : AssocMap) (r : VResult) :
    RExt (fun _ => True) r (runConds c td r) := by
  cases c with
  | nil => rw [runConds_nil]; exact rext_refl _ _
  | cons f expct cb rest =>
    rw [runConds_cons]
    split
    · exact runConds_rext rest td _
    · next val heq =>
      by_cases hg : goEq val expct = true
      · rw [if_pos hg]
        by_cases hs : (VSchema.validate cb td).1.hasErrors = true
        · rw [if_pos hs]
          exact rext_trans (mergeErrors_rext _ r) (runConds_rext rest td _)
        · rw [if_neg hs]
          exact runConds_rext rest td _
      · rw [if_neg hg]
        exact runConds_rext rest td _
termination_by sizeOf c

theorem crossPass_rext (fns : List (AssocMap → Option GoStr)) (td : AssocMap) (r : VResult) :
    RExt (fun k => k = gs "_cross_validation") r (crossPass fns td r) := by
  induction fns generalizing r with
  | nil => exact rext_refl _ _
  | cons fn rest ih =>
    simp only [crossPass]
    cases fn td with
    | none => exact ih _
    | some e =>
      exact rext_trans (rext_addError r (gs "_cross_validation") e rfl) (ih _)

theorem bucket_setValidData (r : VResult) (d : AssocMap) (f : GoStr) :
    (r.setValidData d).bucket f = r.bucket f := rfl

theorem errors_setValidData (r : VResult) (d : AssocMap) :
    (r.setValidData d).errors = r.errors := rfl

theorem fieldPass_required_mem (sh : FieldShape) (td : AssocMap) (r : VResult)
    (f : GoStr) (t : FieldType) (hmem : shapeHas sh f t)
    (hreq : t.baseOf.isRequired = true)
    (hv : mapGet td f = .vNil ∨ mapGet td f = .vStr []) :
    msgRequired (t.baseOf.getLabel f) ∈ (fieldPass sh td r).bucket f := by
  cases sh with
  | nil => exact absurd hmem (by simp [shapeHas])
  | cons n t' rest =>
    simp only [fieldPass]
    rcases hmem with ⟨hn, ht⟩ | hmem'
    · have hstep : validateType t' n (mapGet td n) r
          = r.addError n (msgRequired (t'.baseOf.getLabel n)) :=
        validateType_required t' n (mapGet td n) r (by rw [ht]; exact hreq)
          (by rw [hn]; exact hv)
      have hmem2 : msgRequired (t'.baseOf.getLabel n)
          ∈ (validateType t' n (mapGet td n) r).bucket n := by
        rw [hstep, bucket_addError, if_pos rfl]
        exact List.mem_append_right _ (List.mem_singleton.mpr rfl)
      have hfin := mem_bucket_of_rext (fieldPass_rext rest td _) hmem2
      rw [← hn, ← ht]
      exact hfin
    · exact fieldPass_required_mem rest td _ f t hmem' hreq hv
termination_by sizeOf sh

theorem pathExtP_no_sep (p k : GoStr) (h : pathExtP p k)
    (hdot : '.' ∉ k) (hbr : '[' ∉ k) : k = p := by
  rcases h with rfl | ⟨c, rest, rfl, hc⟩
  · rfl
  · rcases hc with rfl | rfl
    · exact absurd (by simp : '.' ∈ p ++ '.' :: rest) hdot
    · exact absurd (by simp : '[' ∈ p ++ '[' :: rest) hbr

/-- The result after steps 1-2 extends the empty result only at shape
names or their dotted/indexed extensions. -/
theorem schemaStep2_rext (s : VSchema) (d : AssocMap) :
    RExt (fun k => ∃ f t, shapeHas s.shape f t ∧ pathExtP f k)
      newResult (schemaStep2 s d) := by
  refine rext_trans (rext_mono ?_ (transformPass_rext s.shape d [] newResult))
    (fieldPass_rext s.shape (schemaTransformed s d) (schemaStep1 s d))
  rintro k ⟨t, hk⟩
  exact ⟨k, t, hk, pathExtP_self k⟩

-- ---------------------------------------------------------------------------
-- Concrete schemas used by counterexamples and witnesses
-- ---------------------------------------------------------------------------

/-- Source `validation.String().Required()`. -/
def strRequired : StringType := { plainStr with base := { plainBase with isRequired := true } }

/-- Source `validation.String().Min(5)`. -/
def strMin5 : StringType := { plainStr with minLength := some 5 }

/-- Shape `{a: String().Required(), b: String().Min(5)}`, no cross
validators, no conditional rules. -/
def c2schema : VSchema :=
  .mk (.cons (gs "a") (.str strRequired) (.cons (gs "b") (.str strMin5) .nil)) [] .nil

/-- Input `{b: "x"}` (field `a` absent). -/
def c2data : AssocMap := [(gs "b", .vStr (gs "x"))]

/-- Sub-schema `{q: String().Required()}` used by a `When` rule. -/
def subSchemaC1 : VSchema := .mk (.cons (gs "q") (.str strRequired) .nil) [] .nil

/-- Schema with shape `{type: String()}`, one always-failing cross
validator, and `When("type", "x", ...)` whose sub-schema records a
required error for `q`. -/
def c1schema : VSchema :=
  .mk (.cons (gs "type") (.str plainStr) .nil)
      [fun _ => some (gs "cross fired")]
      (.cons (gs "type") (.vStr (gs "x")) subSchemaC1 .nil)

/-- Input `{type: "x"}`, which fires the conditional rule. -/
def c1data : AssocMap := [(gs "type", .vStr (gs "x"))]

/-- Sub-schema with empty shape and a failing cross validator. -/
def subSchemaC3 : VSchema := .mk .nil [fun _ => some (gs "boom")] .nil

/-- Schema with a required field `a`, an always-failing top-level cross
validator, and a `When` rule whose sub-schema's own cross validator
fails. -/
def c3schema : VSchema :=
  .mk (.cons (gs "type") (.str plainStr) (.cons (gs "a") (.str strRequired) .nil))
      [fun _ => some (gs "top cross")]
      (.cons (gs "type") (.vStr (gs "x")) subSchemaC3 .nil)

/-- Input `{type: "x"}` (required `a` absent). -/
def c3data : AssocMap := [(gs "type", .vStr (gs "x"))]

/-- Schema `{a: String().Required()}` with one cross validator and no
conditional rules. -/
def c3wschema : VSchema :=
  .mk (.cons (gs "a") (.str strRequired) .nil) [fun _ => some (gs "boom")] .nil

-- ---------------------------------------------------------------------------
-- C1
-- ---------------------------------------------------------------------------

/-- C1, counterexample.  The claim says errors merged from conditional
sub-schemas do not gate the cross-field pass.  On `c1schema` with input
`{type: "x"}` the only errors after steps 1-3 come from the conditional
sub-schema (the required error for `q`), the schema has a registered
always-failing cross validator, and yet the returned result holds no
`_cross_validation` entry: the merged conditional errors did gate the
cross pass. -/
theorem c1_counterexample :
    (VSchema.validate c1schema c1data).1.errors = [(gs "q", [msgRequired (gs "q")])]
    ∧ lookupA (VSchema.validate c1schema c1data).1.errors (gs "_cross_validation")
        = Option.none := by
  have h : (VSchema.validate c1schema c1data).1.errors
      = [(gs "q", [msgRequired (gs "q")])] := by
    simp only [c1schema, c1data, subSchemaC1, validate_mk, runConds_cons, runConds_nil,
      transformPass, fieldPass, transformType_str, validateType_str]
    rfl
  exact ⟨h, by rw [h]; rfl⟩

/-- C1, amended: conditional sub-schema errors DO gate the cross-field
pass, exactly as direct field errors do -- whenever the result after
steps 1-3 (field errors plus merged conditional errors) has any error,
`Validate` returns it unchanged: no cross validator runs and no
`_cross_validation` entry is added. -/
theorem c1_amended (s : VSchema) (d : AssocMap)
    (h : (schemaStep3 s d).hasErrors = true) :
    (VSchema.validate s d).1 = schemaStep3 s d := by
  have h4 : schemaStep4 s d = schemaStep3 s d := by
    simp only [schemaStep4, h, if_true]
  rw [validate_fst, h4, if_pos h]

/-- C1, witness for the amended theorem at `c1schema`, `{type: "x"}`. -/
theorem c1_amended_witness :
    (schemaStep3 c1schema c1data).hasErrors = true
    ∧ (VSchema.validate c1schema c1data).1 = schemaStep3 c1schema c1data := by
  have h : (schemaStep3 c1schema c1data).hasErrors = true := by
    simp only [c1schema, c1data, subSchemaC1, schemaStep3, schemaStep2, schemaStep1,
      schemaTransformed, VSchema.shape, VSchema.conds, validate_mk, runConds_cons,
      runConds_nil, transformPass, fieldPass, transformType_str, validateType_str]
    rfl
  exact ⟨h, c1_amended c1schema c1data h⟩

-- ---------------------------------------------------------------------------
-- C2
-- ---------------------------------------------------------------------------

/-- C2, counterexample.  The claim says one field's failure never prevents
another field's checks from being evaluated.  On `c2schema` with input
`{b: "x"}`, field `a`'s required failure is recorded first (in the
modelled iteration order, an admissible Go map order), and field `b` --
whose value `"x"` violates its `Min(5)` constraint -- gets no error at
all: its checks were skipped because the shared result already had an
error. -/
theorem c2_counterexample :
    (VSchema.validate c2schema c2data).1.errors = [(gs "a", [msgRequired (gs "a")])]
    ∧ lookupA (VSchema.validate c2schema c2data).1.errors (gs "b") = Option.none
    ∧ goLen (gs "x") < 5 := by
  have h : (VSchema.validate c2schema c2data).1.errors
      = [(gs "a", [msgRequired (gs "a")])] := by
    simp only [c2schema, c2data, validate_mk, runConds_nil, transformPass, fieldPass,
      transformType_str, validateType_str]
    rfl
  refine ⟨h, by rw [h]; rfl, by decide⟩

/-- C2, amended: the required check is independent across fields (a
required-and-missing field's error is always recorded, whatever the shared
result holds), but a field's type and constraint checks are not -- once
the shared result holds any error, a later-iterated field's validate
performs only the base required check and returns. -/
theorem c2_amended :
    (∀ (t : FieldType) (f : GoStr) (v : GoValue) (r : VResult),
      r.hasErrors = true → validateType t f v r = t.baseOf.validate f v r)
    ∧ (∀ (s : VSchema) (d : AssocMap) (f : GoStr) (t : FieldType),
      shapeHas s.shape f t → t.baseOf.isRequired = true →
      (mapGet (schemaTransformed s d) f = .vNil
        ∨ mapGet (schemaTransformed s d) f = .vStr []) →
      msgRequired (t.baseOf.getLabel f) ∈ (VSchema.validate s d).1.bucket f) := by
  refine ⟨validateType_skip, ?_⟩
  intro s d f t hmem hreq hv
  have hm2 : msgRequired (t.baseOf.getLabel f) ∈ (schemaStep2 s d).bucket f :=
    fieldPass_required_mem s.shape (schemaTransformed s d) (schemaStep1 s d) f t hmem hreq hv
  have hm3 : msgRequired (t.baseOf.getLabel f) ∈ (schemaStep3 s d).bucket f :=
    mem_bucket_of_rext (runConds_rext s.conds (schemaTransformed s d) (schemaStep2 s d)) hm2
  have hE3 : (schemaStep3 s d).hasErrors = true := mem_bucket_hasErrors _ _ _ hm3
  have h43 : schemaStep4 s d = schemaStep3 s d := by
    simp only [schemaStep4, hE3, if_true]
  rw [validate_fst, h43, if_pos hE3]
  exact hm3

/-- C2, witness for the amended theorem: the skip conjunct at `strMin5`
on a result already holding `a`'s error, and the required-membership
conjunct at `c2schema`, `{b: "x"}`. -/
theorem c2_amended_witness :
    (newResult.addError (gs "a") (msgRequired (gs "a"))).hasErrors = true
    ∧ validateType (.str strMin5) (gs "b") (.vStr (gs "x"))
        (newResult.addError (gs "a") (msgRequired (gs "a")))
      = (FieldType.str strMin5).baseOf.validate (gs "b") (.vStr (gs "x"))
        (newResult.addError (gs "a") (msgRequired (gs "a")))
    ∧ shapeHas c2schema.shape (gs "a") (.str strRequired)
    ∧ (FieldType.str strRequired).baseOf.isRequired = true
    ∧ (mapGet (schemaTransformed c2schema c2data) (gs "a") = .vNil
        ∨ mapGet (schemaTransformed c2schema c2data) (gs "a") = .vStr [])
    ∧ msgRequired ((FieldType.str strRequired).baseOf.getLabel (gs "a"))
        ∈ (VSchema.validate c2schema c2data).1.bucket (gs "a") := by
  have h1 : (newResult.addError (gs "a") (msgRequired (gs "a"))).hasErrors = true :=
    hasErrors_addError _ _ _
  have hs : shapeHas c2schema.shape (gs "a") (.str strRequired) := Or.inl ⟨rfl, rfl⟩
  have hr : (FieldType.str strRequired).baseOf.isRequired = true := rfl
  have hv : mapGet (schemaTransformed c2schema c2data) (gs "a") = .vNil
      ∨ mapGet (schemaTransformed c2schema c2data) (gs "a") = .vStr [] := by
    left
    simp only [c2schema, c2data, schemaTransformed, VSchema.shape, transformPass,
      transformType_str]
    rfl
  exact ⟨h1, c2_amended.1 (.str strMin5) (gs "b") (.vStr (gs "x")) _ h1, hs, hr, hv,
    c2_amended.2 c2schema c2data (gs "a") (.str strRequired) hs hr hv⟩

-- ---------------------------------------------------------------------------
-- C3
-- ---------------------------------------------------------------------------

/-- C3, counterexample.  The claim says any schema with a required field
left empty and a registered cross validator returns the required error and
no `_cross_validation` entry.  On `c3schema` with input `{type: "x"}`,
the required error for `a` is present and the top-level cross validator is
indeed skipped -- but a `When` rule's sub-schema (which itself has no
field errors) ran its own failing cross validator, and its
`_cross_validation` error was merged into the returned result, so the
result DOES hold a `_cross_validation` entry. -/
theorem c3_counterexample :
    (VSchema.validate c3schema c3data).1.bucket (gs "a") = [msgRequired (gs "a")]
    ∧ lookupA (VSchema.validate c3schema c3data).1.errors (gs "_cross_validation")
        = Option.some [gs "boom"] := by
  have h : (VSchema.validate c3schema c3data).1.errors
      = [(gs "a", [msgRequired (gs "a")]),
         (gs "_cross_validation", [gs "boom"])] := by
    simp only [c3schema, c3data, subSchemaC3, validate_mk, runConds_cons, runConds_nil,
      transformPass, fieldPass, transformType_str, validateType_str, crossPass]
    rfl
  constructor
  · rw [VResult.bucket, h]; rfl
  · rw [h]; rfl

/-- C3, amended: for a schema WITHOUT conditional rules, a required field
left nil or empty yields the required error and no `_cross_validation`
entry (the cross pass is skipped entirely), provided no shape field is
itself named `_cross_validation`.  (With conditional rules, a merged
sub-schema result can contribute a `_cross_validation` entry of its own,
as the counterexample shows.) -/
theorem c3_amended (s : VSchema) (d : AssocMap) (f : GoStr) (t : FieldType)
    (hconds : s.conds = .nil)
    (hcross : s.cross ≠ [])
    (hmem : shapeHas s.shape f t) (hreq : t.baseOf.isRequired = true)
    (hv : mapGet (schemaTransformed s d) f = .vNil
      ∨ mapGet (schemaTransformed s d) f = .vStr [])
    (hname : ∀ t', ¬ shapeHas s.shape (gs "_cross_validation") t') :
    msgRequired (t.baseOf.getLabel f) ∈ (VSchema.validate s d).1.bucket f
    ∧ lookupA (VSchema.validate s d).1.errors (gs "_cross_validation")
        = Option.none := by
  have hm2 : msgRequired (t.baseOf.getLabel f) ∈ (schemaStep2 s d).bucket f :=
    fieldPass_required_mem s.shape (schemaTransformed s d) (schemaStep1 s d) f t hmem hreq hv
  have h32 : schemaStep3 s d = schemaStep2 s d := by
    simp only [schemaStep3, hconds, runConds_nil]
  have hE3 : (schemaStep3 s d).hasErrors = true := by
    rw [h32]; exact mem_bucket_hasErrors _ _ _ hm2
  have h43 : schemaStep4 s d = schemaStep3 s d := by
    simp only [schemaStep4, hE3, if_true]
  have hfin : (VSchema.validate s d).1 = schemaStep2 s d := by
    rw [validate_fst, h43, if_pos hE3, h32]
  constructor
  · rw [hfin]; exact hm2
  · rw [hfin, lookupA_eq_none_iff]
    intro hkey
    rcases (schemaStep2_rext s d).2.2 _ hkey with hnew | ⟨f', t', hsh, hp⟩
    · simp [newResult] at hnew
    · have hkf : gs "_cross_validation" = f' :=
        pathExtP_no_sep f' _ hp (by decide) (by decide)
      exact hname t' (hkf ▸ hsh)

/-- C3, witness for the amended theorem at `c3wschema`
(`{a: String().Required()}` plus one cross validator), input `{}`. -/
theorem c3_amended_witness :
    c3wschema.conds = CondList.nil
    ∧ c3wschema.cross ≠ []
    ∧ shapeHas c3wschema.shape (gs "a") (.str strRequired)
    ∧ (FieldType.str strRequired).baseOf.isRequired = true
    ∧ (mapGet (schemaTransformed c3wschema []) (gs "a") = .vNil
        ∨ mapGet (schemaTransformed c3wschema []) (gs "a") = .vStr [])
    ∧ msgRequired ((FieldType.str strRequired).baseOf.getLabel (gs "a"))
        ∈ (VSchema.validate c3wschema []).1.bucket (gs "a")
    ∧ lookupA (VSchema.validate c3wschema []).1.errors (gs "_cross_validation")
        = Option.none := by
  have hconds : c3wschema.conds = CondList.nil := rfl
  have hcross : c3wschema.cross ≠ [] := by simp [c3wschema, VSchema.cross]
  have hs : shapeHas c3wschema.shape (gs "a") (.str strRequired) := Or.inl ⟨rfl, rfl⟩
  have hr : (FieldType.str strRequired).baseOf.isRequired = true := rfl
  have hv : mapGet (schemaTransformed c3wschema []) (gs "a") = .vNil
      ∨ mapGet (schemaTransformed c3wschema []) (gs "a") = .vStr [] := by
    left
    simp only [c3wschema, schemaTransformed, VSchema.shape, transformPass, transformType_str]
    rfl
  have hname : ∀ t', ¬ shapeHas c3wschema.shape (gs "_cross_validation") t' := by
    rintro t' (⟨hn, _⟩ | hfalse)
    · exact absurd hn (by decide)
    · exact hfalse
  obtain ⟨hm, hnone⟩ :=
    c3_amended c3wschema [] (gs "a") (.str strRequired) hconds hcross hs hr hv hname
  exact ⟨hconds, hcross, hs, hr, hv, hm, hnone⟩

-- ---------------------------------------------------------------------------
-- C4
-- ---------------------------------------------------------------------------

/-- C4: validData is all-or-nothing.  For every schema and input, the
returned result has an empty error map or an empty validData map: every
pass before finalization leaves validData empty, and `SetValidData` runs
only on a result with zero errors. -/
theorem c4_validData_all_or_nothing (s : VSchema) (d : AssocMap) :
    (VSchema.validate s d).1.errors = [] ∨ (VSchema.validate s d).1.validData = [] := by
  have h1 : (schemaStep1 s d).validData = [] := by
    simp only [schemaStep1]
    rw [(transformPass_rext s.shape d [] newResult).1]
    rfl
  have h2 : (schemaStep2 s d).validData = [] := by
    simp only [schemaStep2]
    rw [(fieldPass_rext s.shape (schemaTransformed s d) (schemaStep1 s d)).1]
    exact h1
  have h3 : (schemaStep3 s d).validData = [] := by
    simp only [schemaStep3]
    rw [(runConds_rext s.conds (schemaTransformed s d) (schemaStep2 s d)).1]
    exact h2
  have h4 : (schemaStep4 s d).validData = [] := by
    by_cases hh : (schemaStep3 s d).hasErrors = true
    · simp only [schemaStep4, hh, if_true]; exact h3
    · simp only [schemaStep4]
      rw [if_neg hh]
      rw [(crossPass_rext s.cross (schemaTransformed s d) (schemaStep3 s d)).1]
      exact h3
  rw [validate_fst]
  by_cases hh : (schemaStep4 s d).hasErrors = true
  · rw [if_pos hh]; exact Or.inr h4
  · rw [if_neg hh]
    left
    rw [errors_setValidData]
    have hf : (schemaStep4 s d).hasErrors = false := by
      cases h : (schemaStep4 s d).hasErrors
      · rfl
      · exact absurd h hh
    exact (hasErrors_false_iff _).mp hf

-- ---------------------------------------------------------------------------
-- C10
-- ---------------------------------------------------------------------------

/-- C10: `Schema.Validate` never mutates its input record.  In the
embedding the caller's data map is threaded through every step that reads
it (only step 1 reads it, by per-key lookups) and is returned as left by
the call; it equals the input map, with exactly the same bindings. -/
theorem c10_no_input_mutation (s : VSchema) (d : AssocMap) :
    (VSchema.validate s d).2 = d := by
  rw [validate_snd]
  exact transformPass_data s.shape d [] newResult

-- ---------------------------------------------------------------------------
-- C5
-- ---------------------------------------------------------------------------

theorem luhnLoop_none (s : GoStr) (sum : Nat) (b : Bool)
    (h : ∃ c ∈ s, isDigitCh c = false) : luhnLoop s sum b = none := by
  induction s generalizing sum b with
  | nil => obtain ⟨c, hc, _⟩ := h; exact absurd hc (List.not_mem_nil c)
  | cons c rest ih =>
    by_cases hd : isDigitCh c = true
    · simp only [luhnLoop, hd, if_true]
      apply ih
      obtain ⟨c', hc', hdig⟩ := h
      rcases List.mem_cons.mp hc' with rfl | hmem
      · exact absurd hd (by rw [hdig]; exact Bool.false_ne_true)
      · exact ⟨c', hmem, hdig⟩
    · simp [luhnLoop, hd]

/-- C5, counterexample.  The claim says any input containing a non-digit
fails `IsValidCreditCard`.  But `IsValidCreditCard` strips every non-digit
character before checking: a valid card number written with spaces is
accepted. -/
theorem c5_counterexample :
    IsValidCreditCard (gs "4532 0151 1283 0366") (gs "") = true
    ∧ (gs "4532 0151 1283 0366").any (fun c => !isDigitCh c) = true := by
  exact ⟨rfl, rfl⟩

/-- C5, amended: the inner `luhnCheck` does fail on any non-digit
character (not silently skipping it), but `IsValidCreditCard` first strips
every non-digit character (`\D` replaced by the empty string), so its
verdict on any input equals its verdict on the input's digits alone. -/
theorem c5_amended :
    (∀ s : GoStr, (∃ c ∈ s, isDigitCh c = false) → luhnCheck s = false)
    ∧ (∀ s ct : GoStr, IsValidCreditCard s ct = IsValidCreditCard (s.filter isDigitCh) ct) := by
  constructor
  · intro s h
    simp only [luhnCheck, luhnLoop_none s 0 (s.length % 2 == 0) h]
  · intro s ct
    have hff : (s.filter isDigitCh).filter isDigitCh = s.filter isDigitCh := by
      simp [List.filter_filter]
    simp only [IsValidCreditCard, hff]

/-- C5, witness for the amended theorem at the input `"12-3"`. -/
theorem c5_amended_witness :
    (∃ c ∈ gs "12-3", isDigitCh c = false) ∧ luhnCheck (gs "12-3") = false := by
  have hex : ∃ c ∈ gs "12-3", isDigitCh c = false := ⟨'-', by decide, rfl⟩
  exact ⟨hex, c5_amended.1 (gs "12-3") hex⟩

-- ---------------------------------------------------------------------------
-- C6
-- ---------------------------------------------------------------------------

/-- The IBAN mod-97 reference algorithm as the specification words it:
uppercase and strip spaces; optionally enforce the per-country fixed
length; check the coarse format (2 letters + 2 digits + at least 4
alphanumerics); move the first 4 characters to the end; convert each
letter to its numeric value (A=10 … Z=35) building a big-integer decimal
string; valid iff that arbitrary-precision integer mod 97 equals 1. -/
def ibanReference (iban cc : GoStr) : Bool :=
  let normalized := (iban.filter (fun c => c ≠ ' ')).map goToUpper
  let lengthOk :=
    cc = [] || (match ibanCountryLengths cc with
                | some n => goLen normalized = n
                | none => false)
  let formatOk := ibanFormatMatch normalized
  let moved := normalized.drop 4 ++ normalized.take 4
  let digitsStr := (moved.map ibanCharConv).flatten
  let checksumOk :=
    match bigIntSetString digitsStr with
    | some n => n % 97 == 1
    | none => false
  lengthOk && formatOk && checksumOk

/-- C6: `IsValidIBAN` implements the mod-97 reference algorithm, and in
particular accepts the Turkish example under country code TR and rejects
the German example under country code TR (length mismatch). -/
theorem c6_iban_mod97 :
    (∀ iban cc : GoStr, IsValidIBAN iban cc = ibanReference iban cc)
    ∧ IsValidIBAN (gs "TR330006100519786457841326") (gs "TR") = true
    ∧ IsValidIBAN (gs "DE89370400440532013000") (gs "TR") = false := by
  refine ⟨?_, rfl, rfl⟩
  intro iban cc
  simp only [IsValidIBAN, ibanReference, ibanChecksumOk]
  generalize (iban.filter (fun c => c ≠ ' ')).map goToUpper = s0
  by_cases hcc : cc = []
  · subst hcc
    simp only [ne_eq, not_true_eq_false, if_false, decide_True, Bool.true_or, Bool.true_and]
    cases hfmt : ibanFormatMatch s0 with
    | false => simp [hfmt]
    | true =>
      simp only [hfmt, Bool.not_true, Bool.false_eq_true, if_false, Bool.true_and]
      cases hbig : bigIntSetString ((s0.drop 4 ++ s0.take 4).map ibanCharConv).flatten with
      | none => simp
      | some n => simp
  · simp only [ne_eq, hcc, not_false_eq_true, if_true]
    cases hlook : ibanCountryLengths cc with
    | none => simp [hcc]
    | some n =>
      by_cases hlen : goLen s0 = n
      · simp only [hlen, ne_eq, not_true_eq_false, if_false]
        cases hfmt : ibanFormatMatch s0 with
        | false => simp [hfmt, hcc]
        | true =>
          simp only [hfmt, Bool.not_true, Bool.false_eq_true, if_false]
          cases hbig : bigIntSetString ((s0.drop 4 ++ s0.take 4).map ibanCharConv).flatten with
          | none => simp [hcc]
          | some m => simp [hcc]
      · simp [hcc, hlen]

-- ---------------------------------------------------------------------------
-- C7
-- ---------------------------------------------------------------------------

/-- Source `validation.String().Email().Contains("zzz")`. -/
def c7cfg : StringType := { plainStr with emailRegex := true, containsStr := some (gs "zzz") }

/-- C7, counterexample.  The claim says no failing constraint check
prevents the later checks of the same field.  On a field configured with
`Email()` and `Contains("zzz")`, the value `"a..b"` violates both, yet
only the email error is recorded: the email block's `..` pre-check
returns early and the contains check never runs. -/
theorem c7_counterexample :
    strValidate c7cfg (gs "f") (.vStr (gs "a..b")) newResult
      = ⟨[(gs "f", [msgEmail (gs "f")])], []⟩
    ∧ strHas (gs "a..b") (gs "zzz") = false
    ∧ strHas (gs "a..b") (gs "..") = true := ⟨rfl, rfl, rfl⟩

/-- Source `validation.String().Min(5).Contains("z")`. -/
def c7wcfg : StringType := { plainStr with minLength := some 5, containsStr := some (gs "z") }

/-- C7, amended: for a string field with no email rule, no url rule and a
well-formed custom regex, the checks accumulate without short-circuiting:
the validate pass appends exactly the concatenation, in source order, of
each failing check's own error.  (The email and url pre-check branches and
an invalid custom-regex pattern end the pass early, as the counterexample
shows.) -/
theorem c7_amended (s : StringType) (field str : GoStr) (r : VResult)
    (hemail : s.emailRegex = false) (hurl : s.urlRegex = false)
    (hrerr : s.regexError = none)
    (hbase : baseMsgs s.base field (.vStr str) = [])
    (hr : r.hasErrors = false) :
    strValidate s field (.vStr str) r =
      addMsgs field
        (minLenMsgs s (s.base.getLabel field) str
          ++ maxLenMsgs s (s.base.getLabel field) str
          ++ oneOfMsgs s (s.base.getLabel field) str
          ++ alphaMsgs s (s.base.getLabel field) str
          ++ alnumMsgs s (s.base.getLabel field) str
          ++ numericMsgs s (s.base.getLabel field) str
          ++ startsMsgs s (s.base.getLabel field) str
          ++ endsMsgs s (s.base.getLabel field) str
          ++ containsMsgs s (s.base.getLabel field) str
          ++ customRegexMsgs s (s.base.getLabel field) str
          ++ macMsgs s (s.base.getLabel field) str
          ++ hexMsgs s (s.base.getLabel field) str) r := by
  rw [strValidate_vStr_eq s field str r hbase hr]
  simp [strMsgs, strEmailMsgs, strUrlMsgs, strTailMsgs, hemail, hurl, hrerr,
    List.append_assoc]

/-- C7, witness for the amended theorem: `Min(5)` and `Contains("z")` on
the value `"ab"`, which violates both; both errors are collected. -/
theorem c7_amended_witness :
    c7wcfg.emailRegex = false ∧ c7wcfg.urlRegex = false
    ∧ c7wcfg.regexError = none
    ∧ baseMsgs c7wcfg.base (gs "f") (.vStr (gs "ab")) = []
    ∧ newResult.hasErrors = false
    ∧ strValidate c7wcfg (gs "f") (.vStr (gs "ab")) newResult =
        addMsgs (gs "f")
          (minLenMsgs c7wcfg (c7wcfg.base.getLabel (gs "f")) (gs "ab")
            ++ maxLenMsgs c7wcfg (c7wcfg.base.getLabel (gs "f")) (gs "ab")
            ++ oneOfMsgs c7wcfg (c7wcfg.base.getLabel (gs "f")) (gs "ab")
            ++ alphaMsgs c7wcfg (c7wcfg.base.getLabel (gs "f")) (gs "ab")
            ++ alnumMsgs c7wcfg (c7wcfg.base.getLabel (gs "f")) (gs "ab")
            ++ numericMsgs c7wcfg (c7wcfg.base.getLabel (gs "f")) (gs "ab")
            ++ startsMsgs c7wcfg (c7wcfg.base.getLabel (gs "f")) (gs "ab")
            ++ endsMsgs c7wcfg (c7wcfg.base.getLabel (gs "f")) (gs "ab")
            ++ containsMsgs c7wcfg (c7wcfg.base.getLabel (gs "f")) (gs "ab")
            ++ customRegexMsgs c7wcfg (c7wcfg.base.getLabel (gs "f")) (gs "ab")
            ++ macMsgs c7wcfg (c7wcfg.base.getLabel (gs "f")) (gs "ab")
            ++ hexMsgs c7wcfg (c7wcfg.base.getLabel (gs "f")) (gs "ab")) newResult
    ∧ minLenMsgs c7wcfg (c7wcfg.base.getLabel (gs "f")) (gs "ab") ≠ []
    ∧ containsMsgs c7wcfg (c7wcfg.base.getLabel (gs "f")) (gs "ab") ≠ [] := by
  refine ⟨rfl, rfl, rfl, rfl, rfl,
    c7_amended c7wcfg (gs "f") (gs "ab") newResult rfl rfl rfl rfl rfl,
    by decide, by decide⟩

-- ---------------------------------------------------------------------------
-- C8
-- ---------------------------------------------------------------------------

/-- Source `validation.Object().Shape({name: String().Required()})`. -/
def objUser : FieldType := .obj plainBase (.cons (gs "name") (.str strRequired) .nil)

/-- Source `validation.Array().Elements(String().Email())`. -/
def arrEmails : FieldType :=
  .arr plainBase none none false (.withSchema (.str { plainStr with emailRegex := true }))

/-- C8: nested errors carry fully qualified keys.  A Struct child's error
is recorded under the dotted path (validating `{name: nil}` under `"user"`
puts the required error at exactly `"user.name"`), a List element's error
under the indexed path (`["a@b.com", "bad"]` under `"emails"` errors at
exactly `"emails[1]"`), both written into the single shared result passed
in; and in general every key a validate call adds to the shared result is
the call's own path or a dotted/indexed extension of it. -/
theorem c8_nested_paths :
    validateType objUser (gs "user") (.vMap [(gs "name", .vNil)]) newResult
      = ⟨[(gs "user.name", [msgRequired (gs "user.name")])], []⟩
    ∧ validateType arrEmails (gs "emails")
        (.vList [.vStr (gs "a@b.com"), .vStr (gs "bad")]) newResult
      = ⟨[(gs "emails[1]", [msgEmail (gs "emails[1]")])], []⟩
    ∧ (∀ (t : FieldType) (p : GoStr) (v : GoValue) (r : VResult) (k : GoStr),
        k ∈ (validateType t p v r).errors.map Prod.fst →
        k ∈ r.errors.map Prod.fst ∨ pathExtP p k) := by
  refine ⟨?_, ?_, ?_⟩
  · simp only [objUser, validateType.eq_def, validateShape.eq_def, validateElems.eq_def]
    rfl
  · simp only [arrEmails, validateType.eq_def, validateShape.eq_def, validateElems.eq_def]
    rfl
  · intro t p v r k hk
    exact (validateType_rext t p v r).2.2 k hk

/-- C8, witness for the general key-confinement conjunct at the concrete
Struct example. -/
theorem c8_nested_paths_witness :
    (gs "user.name")
      ∈ (validateType objUser (gs "user") (.vMap [(gs "name", .vNil)]) newResult).errors.map
          Prod.fst
    ∧ ((gs "user.name") ∈ newResult.errors.map Prod.fst
        ∨ pathExtP (gs "user") (gs "user.name")) := by
  have hmem : (gs "user.name")
      ∈ (validateType objUser (gs "user") (.vMap [(gs "name", .vNil)]) newResult).errors.map
          Prod.fst := by
    have h := c8_nested_paths.1
    rw [h]
    exact List.mem_singleton.mpr rfl
  exact ⟨hmem, c8_nested_paths.2.2 objUser (gs "user") (.vMap [(gs "name", .vNil)])
    newResult (gs "user.name") hmem⟩

-- ---------------------------------------------------------------------------
-- C9
-- ---------------------------------------------------------------------------

/-- C9: required-gating.  For every modelled Field with `required=true`,
validating nil or the empty string into an empty result records exactly
one localized required error for that field, built from the field's
effective label, and nothing else -- no other configured check runs. -/
theorem c9_required_gating (t : FieldType) (f : GoStr) (v : GoValue)
    (hreq : t.baseOf.isRequired = true) (hv : v = .vNil ∨ v = .vStr []) :
    validateType t f v newResult
      = ⟨[(f, [msgRequired (t.baseOf.getLabel f)])], []⟩ := by
  rw [validateType_required t f v newResult hreq hv]
  rfl

/-- C9, witness: a required string field named `email` given nil. -/
theorem c9_required_gating_witness :
    (FieldType.str strRequired).baseOf.isRequired = true
    ∧ validateType (.str strRequired) (gs "email") .vNil newResult
        = ⟨[(gs "email", [msgRequired (gs "email")])], []⟩ := by
  refine ⟨rfl, ?_⟩
  exact c9_required_gating (.str strRequired) (gs "email") .vNil rfl (Or.inl rfl)
